import Mathlib

/-!
# crossgit/builder: the condition compiler of `cond.go`

A shallow embedding of `cond.go` (package `builder`) and theorems about it.

Modelling conventions.

* A Go `interface{}` argument value is a `Value`: one constructor for each
  dynamic type that `cond.go` inspects in a type switch, the scalar types of
  the elements of those lists, and a few other dynamic types that the code
  never inspects.  Integers are only carried around, never computed with.
* A Go `map[string]interface{}` is the list of its entries in the order in
  which the `range` loop of that run visits them; `len(m)` is the length of
  that list.
* A `Cond` interface value is a `Cond`; the nil interface value is `Cond.nil`.
* A sink (`Writer`) is its accumulated text, its argument list and the list
  of outcomes of its future `Write` calls (`true`: that call fails).  The
  `stringWriter` made by `NewWriter` never fails: its list is empty.
* A nil slice and an empty slice are both the empty list.  A slice is the
  list of its elements; capacity and the sharing of backing arrays are not
  modelled.  The source writes into an array that may be shared in one place
  only, the `append` of `condOr.Or`.
* Go fixes no order for `range` over a map, so two runs over the same map may
  visit it differently: a statement that compares two calls of `ToSQL` names
  the tree of each call, related by `Reordered`.
* Text is a `String`; slicing is by character, which is slicing by byte for
  the ASCII text `?,` that the code slices.
* `WriteTo` returns an `Outcome`: a return of nil, a return of an error, or a
  panic (a method call on the nil interface, a slice out of range).

The definitions of the source come first, then the vocabulary in which the
theorems are stated, then the lemmas, then one theorem for each claim.
-/

namespace Builder

/-! ## Values, errors, sinks -/

/-- A Go `interface{}` value passed as a bound argument. -/
inductive Value where
  | null
  | bool (b : Bool)
  | int (n : Int)
  | int8 (n : Int)
  | int16 (n : Int)
  | int32 (n : Int)
  | int64 (n : Int)
  | uint (n : Nat)
  | str (s : String)
  | ints (l : List Int)
  | int8s (l : List Int)
  | int16s (l : List Int)
  | int32s (l : List Int)
  | int64s (l : List Int)
  | strs (l : List String)
  | uints (l : List Nat)
  deriving DecidableEq

/-- A Go `error` value: one made by `errors.New`, or one returned by a sink. -/
inductive Error where
  | new (text : String)
  | sink
  deriving DecidableEq

/-- A run-time panic of the Go program. -/
inductive Panic where
  | nilDereference
  | sliceBounds
  deriving DecidableEq

deriving instance DecidableEq for Except

/-- The state of a `Writer`: text written, arguments appended, and the
outcomes of the `Write` calls still to come (`true` means the call fails;
past the end of the list every call succeeds). -/
structure Writer where
  buf : String
  args : List Value
  faults : List Bool
  deriving DecidableEq

/-- `NewWriter()`: an empty `stringWriter`, whose `Write` never fails. -/
def NewWriter : Writer := ⟨"", [], []⟩

/-- `w.Append(args...)`. -/
def Writer.Append (w : Writer) (args : List Value) : Writer :=
  { w with args := w.args ++ args }

/-- One `Write` call (as made by `fmt.Fprint` and `fmt.Fprintf`): the new
state of the sink and the error returned, if any.  A failing call writes
nothing. -/
def Writer.Write (w : Writer) (s : String) : Writer × Option Error :=
  match w.faults with
  | [] => ({ w with buf := w.buf ++ s }, none)
  | false :: fs => ({ w with buf := w.buf ++ s, faults := fs }, none)
  | true :: fs => ({ w with faults := fs }, some Error.sink)

/-- What a call of `WriteTo` does: it returns nil, it returns an error, or
the program panics.  The sink is given in the state it has at that moment. -/
inductive Outcome where
  | done (w : Writer)
  | failed (e : Error) (w : Writer)
  | panicked (p : Panic)
  deriving DecidableEq

/-- `if _, err := fmt.Fprint(w, s); err != nil { return err }` followed by
the rest of the function. -/
def checked (w : Writer) (s : String) (k : Writer → Outcome) : Outcome :=
  match w.Write s with
  | (w1, none) => k w1
  | (w1, some e) => Outcome.failed e w1

/-- `fmt.Fprint(w, s)` with its result dropped. -/
def unchecked (w : Writer) (s : String) : Writer := (w.Write s).1

/-! ## Go library functions used by the code -/

/-- `strings.Repeat(s, n)`. -/
def Repeat (s : String) : Nat → String
  | 0 => ""
  | n + 1 => s ++ Repeat s n

/-- The slice expression `s[:hi]`, which panics unless `0 ≤ hi ≤ len(s)`. -/
def sliceTo (s : String) (hi : Int) : Except Panic String :=
  if hi < 0 ∨ (s.length : Int) < hi then Except.error Panic.sliceBounds
  else Except.ok (String.mk (s.data.take hi.toNat))

/-! ## Conditions -/

/-- The implementations of the `Cond` interface, and the nil interface. -/
inductive Cond where
  | nil
  | condEmpty
  | condAnd (cs : List Cond)
  | condOr (cs : List Cond)
  | expr (sql : String) (args : List Value)
  | Eq (m : List (String × Value))
  | Neq (m : List (String × Value))
  | Lt (m : List (String × Value))
  | Lte (m : List (String × Value))
  | Gt (m : List (String × Value))
  | Gte (m : List (String × Value))
  | Between (col : String) (lessVal moreVal : Value)
  | condIn (col : String) (vals : List Value)
  | condNotIn (col : String) (vals : List Value)
  | Like (col : String) (frag : String)
  | IsNull (col : String)
  | NotNull (col : String)
  | Not (c : Cond)

/-- `NewCond()`. -/
def NewCond : Cond := Cond.condEmpty

/-- `Expr(sql, args...)`. -/
def Expr (sql : String) (args : List Value) : Cond := Cond.expr sql args

/-- `In(col, values...)`. -/
def In (col : String) (values : List Value) : Cond := Cond.condIn col values

/-- `NotIn(col, values...)`. -/
def NotIn (col : String) (values : List Value) : Cond := Cond.condNotIn col values

/-- The type assertion `cond.(condOr)` succeeds. -/
def Cond.isOr : Cond → Bool
  | .condOr _ => true
  | _ => false

/-- The type assertion `cond.(condAnd)` succeeds. -/
def Cond.isAnd : Cond → Bool
  | .condAnd _ => true
  | _ => false

/-- The type assertion `cond.(condEmpty)` succeeds. -/
def Cond.isEmpty : Cond → Bool
  | .condEmpty => true
  | _ => false

/-- The comparison `cond == nil`. -/
def Cond.isNil : Cond → Bool
  | .nil => true
  | _ => false

/-! ## Set membership -/

/-- The body shared by every branch of the type switch of `condIn.WriteTo`
and `condNotIn.WriteTo`: `n` placeholders are formatted after `col` and `op`,
the last comma is sliced off, the text is written, and the values `elems` are
appended.  The slice is an argument of `fmt.Fprintf`, so it is evaluated, and
may panic, before anything is written. -/
def writeValues (op col : String) (elems : List Value) (one : Bool) (w : Writer) : Outcome :=
  let questionMark := Repeat "?," elems.length
  match sliceTo questionMark ((questionMark.length : Int) - 1) with
  | Except.error p => Outcome.panicked p
  | Except.ok q =>
    checked w (col ++ op ++ q ++ ")") fun w1 =>
      if one then Outcome.done (elems.foldl (fun acc val => acc.Append [val]) w1)
      else Outcome.done (w1.Append elems)

/-- `condIn.WriteTo`. -/
def condIn.WriteTo (col : String) (vals : List Value) (w : Writer) : Outcome :=
  match vals with
  | [] => Outcome.failed (Error.new "No in conditions") w
  | v0 :: _ =>
    match v0 with
    | .int8s l => writeValues " IN (" col (l.map Value.int8) true w
    | .int16s l => writeValues " IN (" col (l.map Value.int16) true w
    | .ints l => writeValues " IN (" col (l.map Value.int) true w
    | .int32s l => writeValues " IN (" col (l.map Value.int32) true w
    | .strs l => writeValues " IN (" col (l.map Value.str) true w
    | .int64s l => writeValues " IN (" col (l.map Value.int64) true w
    | _ => writeValues " IN (" col vals false w

/-- `condNotIn.WriteTo`. -/
def condNotIn.WriteTo (col : String) (vals : List Value) (w : Writer) : Outcome :=
  match vals with
  | [] => Outcome.failed (Error.new "No in conditions") w
  | v0 :: _ =>
    match v0 with
    | .int8s l => writeValues " NOT IN (" col (l.map Value.int8) true w
    | .int16s l => writeValues " NOT IN (" col (l.map Value.int16) true w
    | .ints l => writeValues " NOT IN (" col (l.map Value.int) true w
    | .int32s l => writeValues " NOT IN (" col (l.map Value.int32) true w
    | .strs l => writeValues " NOT IN (" col (l.map Value.str) true w
    | .int64s l => writeValues " NOT IN (" col (l.map Value.int64) true w
    | _ => writeValues " NOT IN (" col vals false w

/-! ## Conditions keyed by a map -/

/-- The loop of `WriteMap` over the entries not yet visited: `n` is
`len(data)`, `i` the loop counter, `args` the local slice. -/
def WriteMap.loop (n : Nat) (op : String) :
    List (String × Value) → Nat → List Value → Writer → Outcome
  | [], _, args, w => Outcome.done (w.Append args)
  | (k, v) :: rest, i, args, w =>
    checked w (k ++ op ++ "?") fun w1 =>
      if (i : Int) ≠ (n : Int) - 1 then
        checked w1 " AND " fun w2 => WriteMap.loop n op rest (i + 1) (args ++ [v]) w2
      else WriteMap.loop n op rest (i + 1) (args ++ [v]) w1

/-- `WriteMap(w, data, op)`. -/
def WriteMap (w : Writer) (data : List (String × Value)) (op : String) : Outcome :=
  WriteMap.loop data.length op data 0 [] w

/-- The first case of the type switch of `Eq.WriteTo` and `Neq.WriteTo`:
`[]int, []int64, []string, []int32, []int16, []int8`. -/
def Value.isList : Value → Bool
  | .ints _ => true
  | .int64s _ => true
  | .strs _ => true
  | .int32s _ => true
  | .int16s _ => true
  | .int8s _ => true
  | _ => false

/-- The loop of `Eq.WriteTo` over the entries not yet visited. -/
def Eq.loop (n : Nat) : List (String × Value) → Nat → List Value → Writer → Outcome
  | [], _, args, w => Outcome.done (w.Append args)
  | (k, v) :: rest, i, args, w =>
    if v.isList then
      match condIn.WriteTo k [v] w with
      | Outcome.done w1 =>
        if (i : Int) ≠ (n : Int) - 1 then
          checked w1 " AND " fun w2 => Eq.loop n rest (i + 1) args w2
        else Eq.loop n rest (i + 1) args w1
      | other => other
    else
      checked w (k ++ "=?") fun w1 =>
        if (i : Int) ≠ (n : Int) - 1 then
          checked w1 " AND " fun w2 => Eq.loop n rest (i + 1) (args ++ [v]) w2
        else Eq.loop n rest (i + 1) (args ++ [v]) w1

/-- `Eq.WriteTo`. -/
def Eq.WriteTo (eq : List (String × Value)) (w : Writer) : Outcome :=
  Eq.loop eq.length eq 0 [] w

/-- The loop of `Neq.WriteTo` over the entries not yet visited. -/
def Neq.loop (n : Nat) : List (String × Value) → Nat → List Value → Writer → Outcome
  | [], _, args, w => Outcome.done (w.Append args)
  | (k, v) :: rest, i, args, w =>
    if v.isList then
      match condNotIn.WriteTo k [v] w with
      | Outcome.done w1 =>
        if (i : Int) ≠ (n : Int) - 1 then
          checked w1 " AND " fun w2 => Neq.loop n rest (i + 1) args w2
        else Neq.loop n rest (i + 1) args w1
      | other => other
    else
      checked w (k ++ "<>?") fun w1 =>
        if (i : Int) ≠ (n : Int) - 1 then
          checked w1 " AND " fun w2 => Neq.loop n rest (i + 1) (args ++ [v]) w2
        else Neq.loop n rest (i + 1) (args ++ [v]) w1

/-- `Neq.WriteTo`. -/
def Neq.WriteTo (neq : List (String × Value)) (w : Writer) : Outcome :=
  Neq.loop neq.length neq 0 [] w

/-! ## Emission of a condition tree -/

mutual
/-- `cond.WriteTo(w)`, by the dynamic type of `cond`; a method call on the
nil interface panics. -/
def Cond.WriteTo : Cond → Writer → Outcome
  | .nil, _ => Outcome.panicked Panic.nilDereference
  | .condEmpty, w => Outcome.done w
  | .condAnd cs, w => condAnd.loop cs.length cs 0 w
  | .condOr cs, w => condOr.loop cs.length cs 0 w
  | .expr sql args, w => checked w sql fun w1 => Outcome.done (w1.Append args)
  | .Eq m, w => Eq.WriteTo m w
  | .Neq m, w => Neq.WriteTo m w
  | .Lt m, w => WriteMap w m "<"
  | .Lte m, w => WriteMap w m "<="
  | .Gt m, w => WriteMap w m ">"
  | .Gte m, w => WriteMap w m ">="
  | .Between col lessVal moreVal, w =>
    checked w (col ++ " BETWEEN ? AND ?") fun w1 =>
      Outcome.done (w1.Append [lessVal, moreVal])
  | .condIn col vals, w => condIn.WriteTo col vals w
  | .condNotIn col vals, w => condNotIn.WriteTo col vals w
  | .Like col frag, w =>
    checked w (col ++ " LIKE ?") fun w1 =>
      Outcome.done (w1.Append [Value.str ("%" ++ frag ++ "%")])
  | .IsNull col, w => checked w (col ++ " IS NULL") fun w1 => Outcome.done w1
  | .NotNull col, w => checked w (col ++ " IS NOT NULL") fun w1 => Outcome.done w1
  | .Not c, w =>
    checked w "NOT " fun w1 =>
      if c.isAnd || c.isOr then
        checked w1 "(" fun w2 =>
          match Cond.WriteTo c w2 with
          | Outcome.done w3 => checked w3 ")" fun w4 => Outcome.done w4
          | other => other
      else
        match Cond.WriteTo c w1 with
        | Outcome.done w3 => Outcome.done w3
        | other => other
/-- The loop of `condAnd.WriteTo` over the children not yet visited: `n` is
`len(and)` and `i` the loop index.  The results of the `fmt.Fprint` calls
are dropped, as in the source. -/
def condAnd.loop (n : Nat) : List Cond → Nat → Writer → Outcome
  | [], _, w => Outcome.done w
  | c :: rest, i, w =>
    match Cond.WriteTo c (if c.isOr then unchecked w "(" else w) with
    | Outcome.done w2 =>
      condAnd.loop n rest (i + 1)
        (let w3 := if c.isOr then unchecked w2 ")" else w2
         if (i : Int) ≠ (n : Int) - 1 then unchecked w3 " AND " else w3)
    | other => other
/-- The loop of `condOr.WriteTo` over the children not yet visited. -/
def condOr.loop (n : Nat) : List Cond → Nat → Writer → Outcome
  | [], _, w => Outcome.done w
  | c :: rest, i, w =>
    match Cond.WriteTo c (if c.isAnd then unchecked w "(" else w) with
    | Outcome.done w2 =>
      condOr.loop n rest (i + 1)
        (let w3 := if c.isAnd then unchecked w2 ")" else w2
         if (i : Int) ≠ (n : Int) - 1 then unchecked w3 " OR " else w3)
    | other => other
end

/-- `ToSQL(cond)`: the text, the arguments and the error returned, unless the
program panics. -/
def ToSQL (cond : Cond) : Except Panic (String × List Value × Option Error) :=
  if cond.isNil then Except.ok ("", [], none)
  else if cond.isEmpty then Except.ok ("", [], none)
  else
    match cond.WriteTo NewWriter with
    | Outcome.failed err _ => Except.ok ("", [], some err)
    | Outcome.done w => Except.ok (w.buf, w.args, none)
    | Outcome.panicked p => Except.error p

/-! ## Construction of And and Or nodes -/

/-- `len(c) == 0` for the value `c` of a successful assertion `cond.(condAnd)`. -/
def Cond.isAndOfNone : Cond → Bool
  | .condAnd cs => cs.length == 0
  | _ => false

/-- `len(c) == 0` for the value `c` of a successful assertion `cond.(condOr)`. -/
def Cond.isOrOfNone : Cond → Bool
  | .condOr cs => cs.length == 0
  | _ => false

/-- The loop of `And` over the inputs not yet visited; `result` is the slice
built so far. -/
def And.loop : List Cond → List Cond → List Cond
  | [], result => result
  | cond :: rest, result =>
    if cond.isNil then And.loop rest result
    else if cond.isEmpty then And.loop rest result
    else if cond.isAndOfNone then And.loop rest result
    else if cond.isOrOfNone then And.loop rest result
    else And.loop rest (result ++ [cond])

/-- `And(conds...)`. -/
def And (conds : List Cond) : Cond := Cond.condAnd (And.loop conds [])

/-- The loop of `Or` over the inputs not yet visited. -/
def Or.loop : List Cond → List Cond → List Cond
  | [], result => result
  | cond :: rest, result =>
    if cond.isNil then Or.loop rest result
    else if cond.isEmpty then Or.loop rest result
    else Or.loop rest (result ++ [cond])

/-- `Or(conds...)`. -/
def Or (conds : List Cond) : Cond := Cond.condOr (Or.loop conds [])

/-- The method `x.And(conds...)`, by the dynamic type of `x`. -/
def Cond.And (x : Cond) (conds : List Cond) : Except Panic Cond :=
  match x with
  | .nil => Except.error Panic.nilDereference
  | .condEmpty => Except.ok (Builder.And conds)
  | .condAnd _ => Except.ok (Builder.And [x, Builder.And conds])
  | .condOr _ => Except.ok (Cond.condAnd [x, Builder.And conds])
  | .expr _ _ => Except.ok (Cond.condAnd [x, Builder.And conds])
  | .Eq _ => Except.ok (Cond.condAnd [x, Builder.And conds])
  | .Neq _ => Except.ok (Cond.condAnd [x, Builder.And conds])
  | .Lt _ => Except.ok (Cond.condAnd [x, Builder.And conds])
  | .Lte _ => Except.ok (Cond.condAnd [x, Builder.And conds])
  | .Gt _ => Except.ok (Cond.condAnd [x, Builder.And conds])
  | .Gte _ => Except.ok (Cond.condAnd [x, Builder.And conds])
  | .Between _ _ _ => Except.ok (Cond.condAnd [x, Builder.And conds])
  | .condIn _ _ => Except.ok (Cond.condAnd [x, Builder.And conds])
  | .condNotIn _ _ => Except.ok (Cond.condAnd [x, Builder.And conds])
  | .Like _ _ => Except.ok (Cond.condAnd [x, Builder.And conds])
  | .IsNull _ => Except.ok (Cond.condAnd [x, Builder.And conds])
  | .NotNull _ => Except.ok (Cond.condAnd [x, Builder.And conds])
  | .Not _ => Except.ok (Cond.condAnd [x, Builder.And conds])

/-- The method `x.Or(conds...)`, by the dynamic type of `x`: the node that the
call returns, as it is when the call returns.  For a `condOr` receiver `o`
the source returns `append(o, Or(conds...))`, a node with the children of `o`
followed by `Or(conds...)`.  When `o` has spare capacity `append` also writes
into the backing array of `o`, which changes every other slice over that
array; this effect on other nodes is a matter of memory layout and is not
part of the value returned here (`condOr.Or.seenBy` gives it for one other
slice), so nothing is stated below about a node made by this case once the
method has been called again on the same array, nor about arguments `conds`
that hold a slice over the array of `o`. -/
def Cond.Or (x : Cond) (conds : List Cond) : Except Panic Cond :=
  match x with
  | .nil => Except.error Panic.nilDereference
  | .condEmpty => Except.ok (Builder.Or conds)
  | .condAnd _ => Except.ok (Builder.Or [x, Builder.Or conds])
  | .condOr o => Except.ok (Cond.condOr (o ++ [Builder.Or conds]))
  | .expr _ _ => Except.ok (Cond.condOr [x, Builder.Or conds])
  | .Eq _ => Except.ok (Cond.condOr [x, Builder.Or conds])
  | .Neq _ => Except.ok (Cond.condOr [x, Builder.Or conds])
  | .Lt _ => Except.ok (Cond.condOr [x, Builder.Or conds])
  | .Lte _ => Except.ok (Cond.condOr [x, Builder.Or conds])
  | .Gt _ => Except.ok (Cond.condOr [x, Builder.Or conds])
  | .Gte _ => Except.ok (Cond.condOr [x, Builder.Or conds])
  | .Between _ _ _ => Except.ok (Cond.condOr [x, Builder.Or conds])
  | .condIn _ _ => Except.ok (Cond.condOr [x, Builder.Or conds])
  | .condNotIn _ _ => Except.ok (Cond.condOr [x, Builder.Or conds])
  | .Like _ _ => Except.ok (Cond.condOr [x, Builder.Or conds])
  | .IsNull _ => Except.ok (Cond.condOr [x, Builder.Or conds])
  | .NotNull _ => Except.ok (Cond.condOr [x, Builder.Or conds])
  | .Not _ => Except.ok (Cond.condOr [x, Builder.Or conds])

/-- The effect of the `append(o, x)` in `condOr.Or` on another slice `s` that
starts where `o` starts in the same backing array, `cap` being the capacity
of `o`: with spare capacity (`len(o) < cap`) `append` writes `x` at index
`len(o)` of the array, so `s` has `x` there if it is that long; without,
`append` copies `o` to a new array and `s` is as before.  (`Or(conds...)`
returns a slice of capacity `len(conds)` and drops nil and Empty inputs, so
its result can have spare capacity.) -/
def condOr.Or.seenBy (o : List Cond) (cap : Nat) (x : Cond) (s : List Cond) : List Cond :=
  if o.length < cap then s.set o.length x else s

/-! ## Vocabulary of the statements -/

/-- The children of an And or Or node (no children for any other value). -/
def Cond.children : Cond → List Cond
  | .condAnd cs => cs
  | .condOr cs => cs
  | _ => []

/-- The number of `?` characters in a text. -/
def countQ (s : String) : Nat := s.data.count '?'

/-- An input that the claim about `And` lists as dropped: nil, Empty, an And
node with zero children, an Or node with zero children. -/
def droppedByAnd : Cond → Bool
  | .nil => true
  | .condEmpty => true
  | .condAnd [] => true
  | .condOr [] => true
  | _ => false

/-- An input that the claim about `Or` lists as dropped: nil or Empty. -/
def droppedByOr : Cond → Bool
  | .nil => true
  | .condEmpty => true
  | _ => false

/-- A variant other than Empty, And and Or (and not the nil interface):
RawExpr, Eq, Neq, Lt, Lte, Gt, Gte, Between, In, NotIn, Like, IsNull, NotNull
or Not. -/
def Cond.isTerm : Cond → Bool
  | .nil => false
  | .condEmpty => false
  | .condAnd _ => false
  | .condOr _ => false
  | _ => true

/-- The elements of a list value of a kind the type switches know, each as an
argument value of its own; `none` for every other value. -/
def Value.elems : Value → Option (List Value)
  | .int8s l => some (l.map Value.int8)
  | .int16s l => some (l.map Value.int16)
  | .ints l => some (l.map Value.int)
  | .int32s l => some (l.map Value.int32)
  | .strs l => some (l.map Value.str)
  | .int64s l => some (l.map Value.int64)
  | _ => none

/-- The values that `In` and `NotIn` bind for the value arguments `vals`: the
elements of the first argument when it is a list of a supported kind, the
arguments themselves otherwise. -/
def boundValues (vals : List Value) : List Value :=
  match vals with
  | [] => []
  | v0 :: _ =>
    match v0.elems with
    | some es => es
    | none => vals

/-- The value set that the claim about `In` names for the value arguments
`vs`: the elements of `vs[0]` when that is a non-empty list of a supported
kind, `vs` itself otherwise. -/
def claimedValues (vs : List Value) : List Value :=
  match vs with
  | [] => []
  | v0 :: _ =>
    match v0.elems with
    | some (e :: es) => e :: es
    | _ => vs

/-- The arguments that belong to one map entry of an Eq or Neq condition: the
elements of the value when it is a list of a supported kind, the value itself
otherwise. -/
def entryArgs (e : String × Value) : List Value :=
  match e.2.elems with
  | some es => es
  | none => [e.2]

/-- The text `?,?,...,?` of `n` placeholders joined by commas. -/
def placeholders (n : Nat) : String := String.intercalate "," (List.replicate n "?")

/-- The outcome is a return of nil. -/
def Outcome.isDone : Outcome → Bool
  | Outcome.done _ => true
  | _ => false

/-- The text in the sink of an outcome that is a return of nil. -/
def Outcome.text : Outcome → String
  | Outcome.done w => w.buf
  | _ => ""

/-- The arguments in the sink of an outcome that is a return of nil. -/
def Outcome.args : Outcome → List Value
  | Outcome.done w => w.args
  | _ => []

/-- The error of an outcome that is a return of an error. -/
def Outcome.err : Outcome → Option Error
  | Outcome.failed e _ => some e
  | _ => none

/-- The text of a child of an And node as the node writes it: the text the
child emits by itself, in parentheses when the child is an Or node. -/
def textInAnd (c : Cond) : String :=
  if c.isOr then "(" ++ (c.WriteTo NewWriter).text ++ ")" else (c.WriteTo NewWriter).text

/-- The text of a child of an Or node as the node writes it: the text the
child emits by itself, in parentheses when the child is an And node. -/
def textInOr (c : Cond) : String :=
  if c.isAnd then "(" ++ (c.WriteTo NewWriter).text ++ ")" else (c.WriteTo NewWriter).text

/-- The text of the operand of a Not as the Not writes it: in parentheses
when the operand is an And or an Or node. -/
def textInNot (c : Cond) : String :=
  if c.isAnd || c.isOr then "(" ++ (c.WriteTo NewWriter).text ++ ")"
  else (c.WriteTo NewWriter).text

/-- The value is a RawExpr node. -/
def Cond.isExpr : Cond → Bool
  | .expr _ _ => true
  | _ => false

/-- The node is not a RawExpr whose text has another number of `?` than it
has arguments. -/
def Cond.exprMatches : Cond → Bool
  | .expr sql args => countQ sql == args.length
  | _ => true

/-- No column name of the node itself contains `?`. -/
def Cond.plainHere : Cond → Bool
  | .Eq m => m.all fun e => countQ e.1 == 0
  | .Neq m => m.all fun e => countQ e.1 == 0
  | .Lt m => m.all fun e => countQ e.1 == 0
  | .Lte m => m.all fun e => countQ e.1 == 0
  | .Gt m => m.all fun e => countQ e.1 == 0
  | .Gte m => m.all fun e => countQ e.1 == 0
  | .Between col _ _ => countQ col == 0
  | .condIn col _ => countQ col == 0
  | .condNotIn col _ => countQ col == 0
  | .Like col _ => countQ col == 0
  | .IsNull col => countQ col == 0
  | .NotNull col => countQ col == 0
  | _ => true

mutual
/-- The test `p` holds of every node of the tree. -/
def Cond.all (p : Cond → Bool) : Cond → Bool
  | .condAnd cs => p (.condAnd cs) && Cond.allList p cs
  | .condOr cs => p (.condOr cs) && Cond.allList p cs
  | .Not c => p (.Not c) && Cond.all p c
  | .nil => p .nil
  | .condEmpty => p .condEmpty
  | .expr sql args => p (.expr sql args)
  | .Eq m => p (.Eq m)
  | .Neq m => p (.Neq m)
  | .Lt m => p (.Lt m)
  | .Lte m => p (.Lte m)
  | .Gt m => p (.Gt m)
  | .Gte m => p (.Gte m)
  | .Between col lo hi => p (.Between col lo hi)
  | .condIn col vals => p (.condIn col vals)
  | .condNotIn col vals => p (.condNotIn col vals)
  | .Like col frag => p (.Like col frag)
  | .IsNull col => p (.IsNull col)
  | .NotNull col => p (.NotNull col)
/-- The test `p` holds of every node of every tree of the list. -/
def Cond.allList (p : Cond → Bool) : List Cond → Bool
  | [] => true
  | c :: cs => Cond.all p c && Cond.allList p cs
end

/-- The tree contains no RawExpr node. -/
def Cond.noRawExpr (c : Cond) : Bool := c.all fun n => !n.isExpr

/-- Every RawExpr node of the tree has as many `?` in its text as it has
arguments. -/
def Cond.matchedRawExpr (c : Cond) : Bool := c.all Cond.exprMatches

/-- No column name in the tree contains `?`. -/
def Cond.plainColumns (c : Cond) : Bool := c.all Cond.plainHere

mutual
/-- The sub-trees of a tree, the tree itself first: the children of And and
Or nodes and the operand of Not, and their sub-trees. -/
def Cond.subtrees : Cond → List Cond
  | .condAnd cs => .condAnd cs :: Cond.subtreesList cs
  | .condOr cs => .condOr cs :: Cond.subtreesList cs
  | .Not c => .Not c :: Cond.subtrees c
  | .nil => [.nil]
  | .condEmpty => [.condEmpty]
  | .expr sql args => [.expr sql args]
  | .Eq m => [.Eq m]
  | .Neq m => [.Neq m]
  | .Lt m => [.Lt m]
  | .Lte m => [.Lte m]
  | .Gt m => [.Gt m]
  | .Gte m => [.Gte m]
  | .Between col lo hi => [.Between col lo hi]
  | .condIn col vals => [.condIn col vals]
  | .condNotIn col vals => [.condNotIn col vals]
  | .Like col frag => [.Like col frag]
  | .IsNull col => [.IsNull col]
  | .NotNull col => [.NotNull col]
/-- The sub-trees of the trees of a list. -/
def Cond.subtreesList : List Cond → List Cond
  | [] => []
  | c :: cs => Cond.subtrees c ++ Cond.subtreesList cs
end

mutual
/-- The number of placeholders a tree contributes, as the claim counts them:
one per scalar entry of Eq, Neq, Lt, Lte, Gt and Gte, one per element of a
list-valued entry of Eq and Neq and of the values bound by In and NotIn, two
for Between, one for Like, none for IsNull and NotNull, and for And, Or and
Not none beyond those of their children.  (A RawExpr counts its arguments.) -/
def Cond.slots : Cond → Nat
  | .nil => 0
  | .condEmpty => 0
  | .condAnd cs => Cond.slotsList cs
  | .condOr cs => Cond.slotsList cs
  | .expr _ args => args.length
  | .Eq m => (m.map fun e => (entryArgs e).length).sum
  | .Neq m => (m.map fun e => (entryArgs e).length).sum
  | .Lt m => m.length
  | .Lte m => m.length
  | .Gt m => m.length
  | .Gte m => m.length
  | .Between _ _ _ => 2
  | .condIn _ vals => (boundValues vals).length
  | .condNotIn _ vals => (boundValues vals).length
  | .Like _ _ => 1
  | .IsNull _ => 0
  | .NotNull _ => 0
  | .Not c => Cond.slots c
/-- The placeholders of the trees of a list together. -/
def Cond.slotsList : List Cond → Nat
  | [] => 0
  | c :: cs => Cond.slots c + Cond.slotsList cs
end

/-- The number of entries of the map of a condition keyed by a map (zero for
every other node). -/
def Cond.mapSize : Cond → Nat
  | .Eq m => m.length
  | .Neq m => m.length
  | .Lt m => m.length
  | .Lte m => m.length
  | .Gt m => m.length
  | .Gte m => m.length
  | _ => 0

/-- No map in the tree has more than one key, so that every `range` over it
has one order only. -/
def Cond.singleKeyed (c : Cond) : Bool := c.all fun n => decide (n.mapSize ≤ 1)

mutual
/-- The tree `d` is the Go value `c` as another run may visit it: the same
tree, with the entries of each map in some order.  (A tree holds each map in
the order in which one run ranges over it, and Go fixes no order: two runs,
or two `range` loops over one map, may differ.) -/
def Reordered : Cond → Cond → Prop
  | .condAnd cs, d => ∃ ds, d = Cond.condAnd ds ∧ ReorderedList cs ds
  | .condOr cs, d => ∃ ds, d = Cond.condOr ds ∧ ReorderedList cs ds
  | .Not c, d => ∃ e, d = Cond.Not e ∧ Reordered c e
  | .Eq m, d => ∃ m2, d = Cond.Eq m2 ∧ m2.Perm m
  | .Neq m, d => ∃ m2, d = Cond.Neq m2 ∧ m2.Perm m
  | .Lt m, d => ∃ m2, d = Cond.Lt m2 ∧ m2.Perm m
  | .Lte m, d => ∃ m2, d = Cond.Lte m2 ∧ m2.Perm m
  | .Gt m, d => ∃ m2, d = Cond.Gt m2 ∧ m2.Perm m
  | .Gte m, d => ∃ m2, d = Cond.Gte m2 ∧ m2.Perm m
  | .nil, d => d = Cond.nil
  | .condEmpty, d => d = Cond.condEmpty
  | .expr sql args, d => d = Cond.expr sql args
  | .Between col lo hi, d => d = Cond.Between col lo hi
  | .condIn col vals, d => d = Cond.condIn col vals
  | .condNotIn col vals, d => d = Cond.condNotIn col vals
  | .Like col frag, d => d = Cond.Like col frag
  | .IsNull col, d => d = Cond.IsNull col
  | .NotNull col, d => d = Cond.NotNull col
/-- The trees `ds` are the Go values `cs`, one by one, as another run may
visit them. -/
def ReorderedList : List Cond → List Cond → Prop
  | [], ds => ds = []
  | c :: cs, ds => ∃ e es, ds = e :: es ∧ Reordered c e ∧ ReorderedList cs es
end

/-! ## Vocabulary of the proofs -/

/-- A value that is no And node, no Or node and no Not. -/
def Cond.isLeaf : Cond → Bool
  | .condAnd _ => false
  | .condOr _ => false
  | .Not _ => false
  | _ => true

/-- The sink `w` with text `b` and arguments `a` put in front of its own. -/
def Writer.shift (b : String) (a : List Value) (w : Writer) : Writer :=
  ⟨b ++ w.buf, a ++ w.args, w.faults⟩

/-- The outcome with `b` and `a` put in front of the text and arguments of
its sink. -/
def Outcome.shift (b : String) (a : List Value) : Outcome → Outcome
  | Outcome.done w => Outcome.done (w.shift b a)
  | Outcome.failed e w => Outcome.failed e (w.shift b a)
  | Outcome.panicked p => Outcome.panicked p

/-- The property of a condition that `WriteTo` commutes with `shift`. -/
def Shifts (c : Cond) : Prop :=
  ∀ (b : String) (a : List Value) (w : Writer),
    c.WriteTo (w.shift b a) = (c.WriteTo w).shift b a

/-- The outcomes of the `Write` calls still to come in the sink of an outcome
(none after a panic). -/
def Outcome.faults : Outcome → List Bool
  | Outcome.done w => w.faults
  | Outcome.failed _ w => w.faults
  | Outcome.panicked _ => []

/-- The property of a condition that it leaves a sink that never fails in
that state. -/
def KeepsReliable (c : Cond) : Prop :=
  ∀ (b : String) (a : List Value), (c.WriteTo (Writer.mk b a [])).faults = []

/-- The property of a tree that, compiled by itself, it has as many
placeholders and as many arguments as the claim counts, provided its RawExpr
nodes match and its column names are plain. -/
def Counts (c : Cond) : Prop :=
  c.all Cond.exprMatches = true → c.all Cond.plainHere = true →
    ∀ w, c.WriteTo NewWriter = Outcome.done w →
      countQ w.buf = c.slots ∧ w.args.length = c.slots

/-- The property of a tree that its sub-trees emit successfully when it does. -/
def SubtreesDone (c : Cond) : Prop :=
  (c.WriteTo NewWriter).isDone = true →
    ∀ s ∈ c.subtrees, (s.WriteTo NewWriter).isDone = true

/-- The property of a tree that a test that holds of all its nodes holds of
all nodes of its sub-trees. -/
def AllInSubtrees (p : Cond → Bool) (c : Cond) : Prop :=
  c.all p = true → ∀ s ∈ c.subtrees, s.all p = true

/-- The property of a tree that a test holding of all its nodes can be
weakened. -/
def AllMono (p q : Cond → Bool) (c : Cond) : Prop :=
  c.all p = true → c.all q = true

/-- The loop of an And or Or node over its last children `cs`, with the test
that no child is left in place of the test of the loop index: `wrap` tells
which children go in parentheses, `sep` is the separator. -/
def seqLoop (wrap : Cond → Bool) (sep : String) : List Cond → Writer → Outcome
  | [], w => Outcome.done w
  | c :: rest, w =>
    match c.WriteTo (if wrap c then unchecked w "(" else w) with
    | Outcome.done w2 =>
      seqLoop wrap sep rest
        (let w3 := if wrap c then unchecked w2 ")" else w2
         if rest.isEmpty then w3 else unchecked w3 sep)
    | other => other

/-- The outcome followed by `k` when it is a return of nil. -/
def Outcome.andThen (o : Outcome) (k : Writer → Outcome) : Outcome :=
  match o with
  | Outcome.done w => k w
  | other => other

/-- The property of a tree without a map of several keys that every run
visits it alike. -/
def OneOrder (c : Cond) : Prop :=
  ∀ d, Reordered c d → c.singleKeyed = true → d = c

/-- Induction over condition trees: a property of every leaf that an And or
Or node inherits from its children, and a Not from its operand, holds of
every tree. -/
theorem Cond.induction {P : Cond → Prop}
    (hAnd : ∀ cs, (∀ c ∈ cs, P c) → P (Cond.condAnd cs))
    (hOr : ∀ cs, (∀ c ∈ cs, P c) → P (Cond.condOr cs))
    (hNot : ∀ c, P c → P (Cond.Not c))
    (hLeaf : ∀ c, c.isLeaf = true → P c) : ∀ c, P c :=
  @Cond.rec P (fun cs => ∀ c ∈ cs, P c)
    (hLeaf _ rfl) (hLeaf _ rfl) hAnd hOr
    (fun _ _ => hLeaf _ rfl) (fun _ => hLeaf _ rfl) (fun _ => hLeaf _ rfl)
    (fun _ => hLeaf _ rfl) (fun _ => hLeaf _ rfl) (fun _ => hLeaf _ rfl)
    (fun _ => hLeaf _ rfl) (fun _ _ _ => hLeaf _ rfl) (fun _ _ => hLeaf _ rfl)
    (fun _ _ => hLeaf _ rfl) (fun _ _ => hLeaf _ rfl) (fun _ => hLeaf _ rfl)
    (fun _ => hLeaf _ rfl) hNot
    (fun c hc => by cases hc)
    (fun head tail hh ht c hc => by
      rcases List.mem_cons.mp hc with rfl | h
      · exact hh
      · exact ht c h)

/-! ## Moving the start of a sink -/

theorem Write_shift (b : String) (a : List Value) (w : Writer) (s : String) :
    (w.shift b a).Write s = (((w.Write s).1).shift b a, (w.Write s).2) := by
  rcases w with ⟨x, y, f⟩
  rcases f with _ | ⟨h, t⟩
  · simp [Writer.Write, Writer.shift, String.append_assoc]
  · cases h <;> simp [Writer.Write, Writer.shift, String.append_assoc]

theorem checked_shift (b : String) (a : List Value) (w : Writer) (s : String)
    (k k2 : Writer → Outcome) (h : ∀ w1, k (w1.shift b a) = (k2 w1).shift b a) :
    checked (w.shift b a) s k = (checked w s k2).shift b a := by
  unfold checked
  rw [Write_shift]
  rcases hw : w.Write s with ⟨w1, e⟩
  cases e <;> simp [h, Outcome.shift]

theorem unchecked_shift (b : String) (a : List Value) (w : Writer) (s : String) :
    unchecked (w.shift b a) s = (unchecked w s).shift b a := by
  simp [unchecked, Write_shift]

theorem Append_shift (b : String) (a : List Value) (w : Writer) (xs : List Value) :
    (w.shift b a).Append xs = (w.Append xs).shift b a := by
  simp [Writer.Append, Writer.shift]

theorem foldl_Append_shift (b : String) (a : List Value) (xs : List Value) (w : Writer) :
    xs.foldl (fun acc val => acc.Append [val]) (w.shift b a) =
      (xs.foldl (fun acc val => acc.Append [val]) w).shift b a := by
  induction xs generalizing w with
  | nil => rfl
  | cons x rest ih => simp only [List.foldl_cons, Append_shift, ih]

theorem writeValues_shift (op col : String) (elems : List Value) (one : Bool)
    (b : String) (a : List Value) (w : Writer) :
    writeValues op col elems one (w.shift b a) =
      (writeValues op col elems one w).shift b a := by
  unfold writeValues
  simp only
  cases sliceTo (Repeat "?," elems.length) (((Repeat "?," elems.length).length : Int) - 1) with
  | error p => rfl
  | ok q =>
    simp only
    apply checked_shift
    intro w1
    cases one <;> simp [Outcome.shift, Append_shift, foldl_Append_shift]

theorem condIn_shift (col : String) (vals : List Value) (b : String) (a : List Value)
    (w : Writer) :
    condIn.WriteTo col vals (w.shift b a) = (condIn.WriteTo col vals w).shift b a := by
  unfold condIn.WriteTo
  split
  · rfl
  · split <;> exact writeValues_shift _ _ _ _ _ _ _

theorem condNotIn_shift (col : String) (vals : List Value) (b : String) (a : List Value)
    (w : Writer) :
    condNotIn.WriteTo col vals (w.shift b a) = (condNotIn.WriteTo col vals w).shift b a := by
  unfold condNotIn.WriteTo
  split
  · rfl
  · split <;> exact writeValues_shift _ _ _ _ _ _ _

theorem WriteMap_loop_shift (n : Nat) (op : String) (m : List (String × Value)) (i : Nat)
    (args : List Value) (b : String) (a : List Value) (w : Writer) :
    WriteMap.loop n op m i args (w.shift b a) = (WriteMap.loop n op m i args w).shift b a := by
  induction m generalizing i args w with
  | nil => simp [WriteMap.loop, Outcome.shift, Append_shift]
  | cons e rest ih =>
    rcases e with ⟨k, v⟩
    simp only [WriteMap.loop]
    apply checked_shift
    intro w1
    split
    · apply checked_shift
      intro w2
      exact ih _ _ _
    · exact ih _ _ _

theorem Eq_loop_shift (n : Nat) (m : List (String × Value)) (i : Nat)
    (args : List Value) (b : String) (a : List Value) (w : Writer) :
    Eq.loop n m i args (w.shift b a) = (Eq.loop n m i args w).shift b a := by
  induction m generalizing i args w with
  | nil => simp [Eq.loop, Outcome.shift, Append_shift]
  | cons e rest ih =>
    rcases e with ⟨k, v⟩
    simp only [Eq.loop]
    split
    · rw [condIn_shift]
      cases condIn.WriteTo k [v] w with
      | done w1 =>
        simp only [Outcome.shift]
        split
        · apply checked_shift
          intro w2
          exact ih _ _ _
        · exact ih _ _ _
      | failed e w1 => rfl
      | panicked p => rfl
    · apply checked_shift
      intro w1
      split
      · apply checked_shift
        intro w2
        exact ih _ _ _
      · exact ih _ _ _

theorem Neq_loop_shift (n : Nat) (m : List (String × Value)) (i : Nat)
    (args : List Value) (b : String) (a : List Value) (w : Writer) :
    Neq.loop n m i args (w.shift b a) = (Neq.loop n m i args w).shift b a := by
  induction m generalizing i args w with
  | nil => simp [Neq.loop, Outcome.shift, Append_shift]
  | cons e rest ih =>
    rcases e with ⟨k, v⟩
    simp only [Neq.loop]
    split
    · rw [condNotIn_shift]
      cases condNotIn.WriteTo k [v] w with
      | done w1 =>
        simp only [Outcome.shift]
        split
        · apply checked_shift
          intro w2
          exact ih _ _ _
        · exact ih _ _ _
      | failed e w1 => rfl
      | panicked p => rfl
    · apply checked_shift
      intro w1
      split
      · apply checked_shift
        intro w2
        exact ih _ _ _
      · exact ih _ _ _

theorem condAnd_loop_shift (cs : List Cond) (h : ∀ c ∈ cs, Shifts c) (n i : Nat)
    (b : String) (a : List Value) (w : Writer) :
    condAnd.loop n cs i (w.shift b a) = (condAnd.loop n cs i w).shift b a := by
  induction cs generalizing i w with
  | nil => simp [condAnd.loop, Outcome.shift]
  | cons c rest ih =>
    have hc : Shifts c := h c (List.mem_cons_self _ _)
    have hrest : ∀ d ∈ rest, Shifts d := fun d hd => h d (List.mem_cons_of_mem _ hd)
    simp only [condAnd.loop]
    have e1 : (if c.isOr = true then unchecked (w.shift b a) "(" else w.shift b a) =
        (if c.isOr = true then unchecked w "(" else w).shift b a := by
      split <;> simp [unchecked_shift]
    rw [e1, hc]
    cases c.WriteTo (if c.isOr = true then unchecked w "(" else w) with
    | done w2 =>
      simp only [Outcome.shift]
      have e2 : ∀ u : Writer, (if (i : Int) ≠ (n : Int) - 1 then unchecked (u.shift b a) " AND "
          else u.shift b a) = (if (i : Int) ≠ (n : Int) - 1 then unchecked u " AND " else u).shift b a := by
        intro u; split <;> simp [unchecked_shift]
      have e3 : (if c.isOr = true then unchecked (w2.shift b a) ")" else w2.shift b a) =
          (if c.isOr = true then unchecked w2 ")" else w2).shift b a := by
        split <;> simp [unchecked_shift]
      rw [e3, e2, ih hrest]
      rfl
    | failed e w1 => rfl
    | panicked p => rfl

theorem condOr_loop_shift (cs : List Cond) (h : ∀ c ∈ cs, Shifts c) (n i : Nat)
    (b : String) (a : List Value) (w : Writer) :
    condOr.loop n cs i (w.shift b a) = (condOr.loop n cs i w).shift b a := by
  induction cs generalizing i w with
  | nil => simp [condOr.loop, Outcome.shift]
  | cons c rest ih =>
    have hc : Shifts c := h c (List.mem_cons_self _ _)
    have hrest : ∀ d ∈ rest, Shifts d := fun d hd => h d (List.mem_cons_of_mem _ hd)
    simp only [condOr.loop]
    have e1 : (if c.isAnd = true then unchecked (w.shift b a) "(" else w.shift b a) =
        (if c.isAnd = true then unchecked w "(" else w).shift b a := by
      split <;> simp [unchecked_shift]
    rw [e1, hc]
    cases c.WriteTo (if c.isAnd = true then unchecked w "(" else w) with
    | done w2 =>
      simp only [Outcome.shift]
      have e2 : ∀ u : Writer, (if (i : Int) ≠ (n : Int) - 1 then unchecked (u.shift b a) " OR "
          else u.shift b a) = (if (i : Int) ≠ (n : Int) - 1 then unchecked u " OR " else u).shift b a := by
        intro u; split <;> simp [unchecked_shift]
      have e3 : (if c.isAnd = true then unchecked (w2.shift b a) ")" else w2.shift b a) =
          (if c.isAnd = true then unchecked w2 ")" else w2).shift b a := by
        split <;> simp [unchecked_shift]
      rw [e3, e2, ih hrest]
      rfl
    | failed e w1 => rfl
    | panicked p => rfl

/-- Emission commutes with a change of what the sink already holds: a
condition writes the same text and appends the same arguments, and ends the
same way, whatever the sink held before. -/
theorem WriteTo_shift (c : Cond) : Shifts c := by
  induction c using Cond.induction with
  | hAnd cs ih =>
    intro b a w
    simp only [Cond.WriteTo]
    exact condAnd_loop_shift cs ih _ _ b a w
  | hOr cs ih =>
    intro b a w
    simp only [Cond.WriteTo]
    exact condOr_loop_shift cs ih _ _ b a w
  | hNot c ih =>
    intro b a w
    simp only [Cond.WriteTo]
    apply checked_shift
    intro w1
    split
    · apply checked_shift
      intro w2
      rw [ih]
      cases c.WriteTo w2 with
      | done w3 =>
        simp only [Outcome.shift]
        apply checked_shift
        intro w4
        rfl
      | failed e w3 => rfl
      | panicked p => rfl
    · rw [ih]
      cases c.WriteTo w1 <;> rfl
  | hLeaf c hc =>
    intro b a w
    cases c with
    | condAnd cs => cases hc
    | condOr cs => cases hc
    | Not c => cases hc
    | nil => rfl
    | condEmpty => rfl
    | expr sql args =>
      simp only [Cond.WriteTo]
      apply checked_shift
      intro w1
      simp [Outcome.shift, Append_shift]
    | Eq m => exact Eq_loop_shift _ _ _ _ _ _ _
    | Neq m => exact Neq_loop_shift _ _ _ _ _ _ _
    | Lt m => exact WriteMap_loop_shift _ _ _ _ _ _ _ _
    | Lte m => exact WriteMap_loop_shift _ _ _ _ _ _ _ _
    | Gt m => exact WriteMap_loop_shift _ _ _ _ _ _ _ _
    | Gte m => exact WriteMap_loop_shift _ _ _ _ _ _ _ _
    | Between col lo hi =>
      simp only [Cond.WriteTo]
      apply checked_shift
      intro w1
      simp [Outcome.shift, Append_shift]
    | condIn col vals => exact condIn_shift _ _ _ _ _
    | condNotIn col vals => exact condNotIn_shift _ _ _ _ _
    | Like col frag =>
      simp only [Cond.WriteTo]
      apply checked_shift
      intro w1
      simp [Outcome.shift, Append_shift]
    | IsNull col =>
      simp only [Cond.WriteTo]
      apply checked_shift
      intro w1
      rfl
    | NotNull col =>
      simp only [Cond.WriteTo]
      apply checked_shift
      intro w1
      rfl

/-! ## A sink that never fails -/

theorem Write_reliable (b : String) (a : List Value) (s : String) :
    (Writer.mk b a []).Write s = (Writer.mk (b ++ s) a [], none) := rfl

theorem checked_reliable (b : String) (a : List Value) (s : String) (k : Writer → Outcome) :
    checked (Writer.mk b a []) s k = k (Writer.mk (b ++ s) a []) := rfl

theorem unchecked_reliable (b : String) (a : List Value) (s : String) :
    unchecked (Writer.mk b a []) s = Writer.mk (b ++ s) a [] := rfl

theorem foldl_Append_eq (xs : List Value) (w : Writer) :
    xs.foldl (fun acc val => acc.Append [val]) w = w.Append xs := by
  induction xs generalizing w with
  | nil => simp [Writer.Append]
  | cons x rest ih =>
    simp only [List.foldl_cons, ih]
    simp [Writer.Append]

/-! ## Placeholders -/

theorem Repeat_length (n : Nat) : (Repeat "?," n).length = 2 * n := by
  induction n with
  | zero => rfl
  | succ n ih =>
    rw [Repeat, String.length_append, ih]
    have : ("?," : String).length = 2 := by decide
    omega

theorem intercalate_go_prefix (p q s : String) (xs : List String) :
    String.intercalate.go (p ++ q) s xs = p ++ String.intercalate.go q s xs := by
  induction xs generalizing q with
  | nil => simp [String.intercalate.go]
  | cons x rest ih =>
    simp only [String.intercalate.go]
    rw [String.append_assoc, String.append_assoc, ih, String.append_assoc]

theorem intercalate_go_replicate (acc : String) (n : Nat) :
    String.intercalate.go acc "," (List.replicate n "?") = acc ++ Repeat ",?" n := by
  induction n generalizing acc with
  | zero => simp [String.intercalate.go, Repeat]
  | succ n ih =>
    simp only [List.replicate_succ, String.intercalate.go]
    rw [ih, Repeat]
    have : ("," ++ "?" : String) = ",?" := by decide
    rw [← this]
    simp [String.append_assoc]

theorem placeholders_succ (n : Nat) :
    placeholders (n + 1) = "?" ++ Repeat ",?" n := by
  unfold placeholders
  simp only [List.replicate_succ, String.intercalate]
  exact intercalate_go_replicate "?" n

theorem take_Repeat (n : Nat) :
    (Repeat "?," (n + 1)).data.take (2 * n + 1) = ("?" ++ Repeat ",?" n).data := by
  induction n with
  | zero => rfl
  | succ n ih =>
    have e : (Repeat "?," (n + 1 + 1)).data = '?' :: ',' :: (Repeat "?," (n + 1)).data := by
      rw [Repeat]; simp [String.data_append]
    have e2 : ("?" ++ Repeat ",?" (n + 1)).data = '?' :: ',' :: ("?" ++ Repeat ",?" n).data := by
      rw [Repeat]; simp [String.data_append]
    rw [e, e2, ← ih]
    have : 2 * (n + 1) + 1 = (2 * n + 1) + 1 + 1 := by ring
    rw [this]
    simp [List.take_succ_cons]

/-- Slicing the last comma off `n + 1` repetitions of `?,` leaves `n + 1`
placeholders joined by commas. -/
theorem sliceTo_Repeat_succ (n : Nat) :
    sliceTo (Repeat "?," (n + 1)) (((Repeat "?," (n + 1)).length : Int) - 1) =
      Except.ok (placeholders (n + 1)) := by
  unfold sliceTo
  rw [Repeat_length]
  have h1 : ¬ (((2 * (n + 1) : Nat) : Int) - 1 < 0 ∨
      ((2 * (n + 1) : Nat) : Int) < ((2 * (n + 1) : Nat) : Int) - 1) := by omega
  rw [if_neg h1]
  have h2 : (((2 * (n + 1) : Nat) : Int) - 1).toNat = 2 * n + 1 := by omega
  rw [h2, take_Repeat, placeholders_succ]

/-- Slicing the last character off zero repetitions panics. -/
theorem sliceTo_Repeat_zero :
    sliceTo (Repeat "?," 0) (((Repeat "?," 0).length : Int) - 1) =
      Except.error Panic.sliceBounds := by decide

theorem countQ_append (s t : String) : countQ (s ++ t) = countQ s + countQ t := by
  simp [countQ, String.data_append, List.count_append]

theorem countQ_Repeat (n : Nat) : countQ (Repeat ",?" n) = n := by
  induction n with
  | zero => rfl
  | succ n ih =>
    rw [Repeat, countQ_append, ih]
    have : countQ ",?" = 1 := by decide
    omega

theorem countQ_placeholders (n : Nat) : countQ (placeholders n) = n := by
  cases n with
  | zero => rfl
  | succ n =>
    rw [placeholders_succ, countQ_append, countQ_Repeat]
    have : countQ "?" = 1 := by decide
    omega

/-- On a sink that never fails, the shared body of `In` and `NotIn` panics
when there is no value to write and otherwise writes the column, the
operator and one placeholder per value, and appends the values in order. -/
theorem writeValues_reliable (op col : String) (elems : List Value) (one : Bool)
    (b : String) (a : List Value) :
    writeValues op col elems one (Writer.mk b a []) =
      if elems = [] then Outcome.panicked Panic.sliceBounds
      else Outcome.done
        (Writer.mk (b ++ (col ++ op ++ placeholders elems.length ++ ")")) (a ++ elems) []) := by
  cases elems with
  | nil =>
    unfold writeValues
    simp only [List.length_nil, sliceTo_Repeat_zero]
    rfl
  | cons x rest =>
    unfold writeValues
    simp only [List.length_cons, sliceTo_Repeat_succ, checked_reliable, foldl_Append_eq]
    cases one <;> simp [Writer.Append]

theorem isList_eq_isSome (v : Value) : v.isList = v.elems.isSome := by
  cases v <;> rfl

/-- On a sink that never fails, `In` returns its error when it has no value
argument, panics when the values to bind are none, and otherwise writes one
placeholder per bound value and appends them. -/
theorem condIn_reliable (col : String) (vals : List Value) (b : String) (a : List Value) :
    condIn.WriteTo col vals (Writer.mk b a []) =
      if vals = [] then Outcome.failed (Error.new "No in conditions") (Writer.mk b a [])
      else if boundValues vals = [] then Outcome.panicked Panic.sliceBounds
      else Outcome.done (Writer.mk
        (b ++ (col ++ " IN (" ++ placeholders (boundValues vals).length ++ ")"))
        (a ++ boundValues vals) []) := by
  cases vals with
  | nil => rfl
  | cons v0 rest =>
    cases v0 <;> simp [condIn.WriteTo, writeValues_reliable, boundValues, Value.elems]

/-- The same for `NotIn`. -/
theorem condNotIn_reliable (col : String) (vals : List Value) (b : String) (a : List Value) :
    condNotIn.WriteTo col vals (Writer.mk b a []) =
      if vals = [] then Outcome.failed (Error.new "No in conditions") (Writer.mk b a [])
      else if boundValues vals = [] then Outcome.panicked Panic.sliceBounds
      else Outcome.done (Writer.mk
        (b ++ (col ++ " NOT IN (" ++ placeholders (boundValues vals).length ++ ")"))
        (a ++ boundValues vals) []) := by
  cases vals with
  | nil => rfl
  | cons v0 rest =>
    cases v0 <;> simp [condNotIn.WriteTo, writeValues_reliable, boundValues, Value.elems]

/-! ## A sink that never fails stays so -/

theorem WriteMap_loop_faults (n : Nat) (op : String) (m : List (String × Value)) (i : Nat)
    (args : List Value) (b : String) (a : List Value) :
    (WriteMap.loop n op m i args (Writer.mk b a [])).faults = [] := by
  induction m generalizing i args b with
  | nil => rfl
  | cons e rest ih =>
    rcases e with ⟨k, v⟩
    simp only [WriteMap.loop, checked_reliable]
    split <;> exact ih _ _ _

theorem Eq_loop_faults (n : Nat) (m : List (String × Value)) (i : Nat)
    (args : List Value) (b : String) (a : List Value) :
    (Eq.loop n m i args (Writer.mk b a [])).faults = [] := by
  induction m generalizing i args b a with
  | nil => rfl
  | cons e rest ih =>
    rcases e with ⟨k, v⟩
    simp only [Eq.loop, checked_reliable, condIn_reliable]
    split
    · by_cases hb : boundValues [v] = []
      · simp [hb, Outcome.faults]
      · simp only [List.cons_ne_nil, if_false, hb, checked_reliable]
        split <;> exact ih _ _ _ _
    · split <;> exact ih _ _ _ _

theorem Neq_loop_faults (n : Nat) (m : List (String × Value)) (i : Nat)
    (args : List Value) (b : String) (a : List Value) :
    (Neq.loop n m i args (Writer.mk b a [])).faults = [] := by
  induction m generalizing i args b a with
  | nil => rfl
  | cons e rest ih =>
    rcases e with ⟨k, v⟩
    simp only [Neq.loop, checked_reliable, condNotIn_reliable]
    split
    · by_cases hb : boundValues [v] = []
      · simp [hb, Outcome.faults]
      · simp only [List.cons_ne_nil, if_false, hb, checked_reliable]
        split <;> exact ih _ _ _ _
    · split <;> exact ih _ _ _ _

theorem done_reliable {c : Cond} (h : KeepsReliable c) {b : String} {a : List Value}
    {w : Writer} (hw : c.WriteTo (Writer.mk b a []) = Outcome.done w) :
    w = Writer.mk w.buf w.args [] := by
  have := h b a
  rw [hw] at this
  rcases w with ⟨x, y, f⟩
  simp only [Outcome.faults] at this
  simp [this]

theorem condAnd_loop_faults (cs : List Cond) (h : ∀ c ∈ cs, KeepsReliable c) (n i : Nat)
    (b : String) (a : List Value) :
    (condAnd.loop n cs i (Writer.mk b a [])).faults = [] := by
  induction cs generalizing i b a with
  | nil => rfl
  | cons c rest ih =>
    have hc : KeepsReliable c := h c (List.mem_cons_self _ _)
    have hrest : ∀ d ∈ rest, KeepsReliable d := fun d hd => h d (List.mem_cons_of_mem _ hd)
    simp only [condAnd.loop, unchecked_reliable]
    have e1 : (if c.isOr = true then Writer.mk (b ++ "(") a [] else Writer.mk b a []) =
        Writer.mk (if c.isOr = true then b ++ "(" else b) a [] := by split <;> rfl
    rw [e1]
    have hf := hc (if c.isOr = true then b ++ "(" else b) a
    cases hw : c.WriteTo (Writer.mk (if c.isOr = true then b ++ "(" else b) a []) with
    | done w2 =>
      rw [done_reliable hc hw]
      simp only [unchecked_reliable]
      split <;> split <;> exact ih hrest _ _ _
    | failed e w1 => rw [hw] at hf; exact hf
    | panicked p => rfl

theorem condOr_loop_faults (cs : List Cond) (h : ∀ c ∈ cs, KeepsReliable c) (n i : Nat)
    (b : String) (a : List Value) :
    (condOr.loop n cs i (Writer.mk b a [])).faults = [] := by
  induction cs generalizing i b a with
  | nil => rfl
  | cons c rest ih =>
    have hc : KeepsReliable c := h c (List.mem_cons_self _ _)
    have hrest : ∀ d ∈ rest, KeepsReliable d := fun d hd => h d (List.mem_cons_of_mem _ hd)
    simp only [condOr.loop, unchecked_reliable]
    have e1 : (if c.isAnd = true then Writer.mk (b ++ "(") a [] else Writer.mk b a []) =
        Writer.mk (if c.isAnd = true then b ++ "(" else b) a [] := by split <;> rfl
    rw [e1]
    have hf := hc (if c.isAnd = true then b ++ "(" else b) a
    cases hw : c.WriteTo (Writer.mk (if c.isAnd = true then b ++ "(" else b) a []) with
    | done w2 =>
      rw [done_reliable hc hw]
      simp only [unchecked_reliable]
      split <;> split <;> exact ih hrest _ _ _
    | failed e w1 => rw [hw] at hf; exact hf
    | panicked p => rfl

/-- Emission into a sink that never fails leaves a sink that never fails. -/
theorem WriteTo_faults (c : Cond) : KeepsReliable c := by
  induction c using Cond.induction with
  | hAnd cs ih =>
    intro b a
    simp only [Cond.WriteTo]
    exact condAnd_loop_faults cs ih _ _ b a
  | hOr cs ih =>
    intro b a
    simp only [Cond.WriteTo]
    exact condOr_loop_faults cs ih _ _ b a
  | hNot c ih =>
    intro b a
    simp only [Cond.WriteTo, checked_reliable]
    split
    · have hf := ih (b ++ "NOT " ++ "(") a
      cases hw : c.WriteTo (Writer.mk (b ++ "NOT " ++ "(") a []) with
      | done w3 =>
        rw [done_reliable ih hw]
        rfl
      | failed e w3 => rw [hw] at hf; exact hf
      | panicked p => rfl
    · have hf := ih (b ++ "NOT ") a
      cases hw : c.WriteTo (Writer.mk (b ++ "NOT ") a []) with
      | done w3 => rw [hw] at hf; exact hf
      | failed e w3 => rw [hw] at hf; exact hf
      | panicked p => rfl
  | hLeaf c hc =>
    intro b a
    cases c with
    | condAnd cs => cases hc
    | condOr cs => cases hc
    | Not c => cases hc
    | Eq m => exact Eq_loop_faults _ _ _ _ _ _
    | Neq m => exact Neq_loop_faults _ _ _ _ _ _
    | Lt m => exact WriteMap_loop_faults _ _ _ _ _ _ _
    | Lte m => exact WriteMap_loop_faults _ _ _ _ _ _ _
    | Gt m => exact WriteMap_loop_faults _ _ _ _ _ _ _
    | Gte m => exact WriteMap_loop_faults _ _ _ _ _ _ _
    | condIn col vals =>
      simp only [Cond.WriteTo, condIn_reliable]
      split
      · rfl
      · split <;> rfl
    | condNotIn col vals =>
      simp only [Cond.WriteTo, condNotIn_reliable]
      split
      · rfl
      · split <;> rfl
    | _ => rfl

/-- What a condition writes into a sink that never fails is what it writes
into a fresh one, after what the sink already held. -/
theorem WriteTo_from_fresh (c : Cond) (b : String) (a : List Value) :
    c.WriteTo (Writer.mk b a []) = (c.WriteTo NewWriter).shift b a := by
  have h := WriteTo_shift c b a NewWriter
  simpa [Writer.shift, NewWriter] using h

/-- A condition that emits successfully by itself writes that text and
appends those arguments after what a never-failing sink already holds. -/
theorem WriteTo_done_from (c : Cond) (h : (c.WriteTo NewWriter).isDone = true)
    (b : String) (a : List Value) :
    c.WriteTo (Writer.mk b a []) = Outcome.done
      (Writer.mk (b ++ (c.WriteTo NewWriter).text) (a ++ (c.WriteTo NewWriter).args) []) := by
  rw [WriteTo_from_fresh]
  cases hw : c.WriteTo NewWriter with
  | done w =>
    have hf : w = Writer.mk w.buf w.args [] := done_reliable (WriteTo_faults c) hw
    rw [hf]
    rfl
  | failed e w => rw [hw] at h; cases h
  | panicked p => rw [hw] at h; cases h

/-- One turn of the loop of an And node whose child emits successfully. -/
theorem condAnd_loop_step (n : Nat) (rest : List Cond) (c : Cond) (i : Nat)
    (hc : (c.WriteTo NewWriter).isDone = true) (x : String) (y : List Value) :
    condAnd.loop n (c :: rest) i (Writer.mk x y []) =
      condAnd.loop n rest (i + 1) (Writer.mk
        (x ++ textInAnd c ++ (if (i : Int) ≠ (n : Int) - 1 then " AND " else ""))
        (y ++ (c.WriteTo NewWriter).args) []) := by
  rw [condAnd.loop]
  cases hor : c.isOr <;> by_cases hi : (i : Int) = (n : Int) - 1 <;>
    simp [unchecked_reliable, hor, WriteTo_done_from c hc, hi, textInAnd, String.append_assoc]

theorem condAnd_loop_done (n : Nat) (rest : List Cond) (c : Cond) (i : Nat)
    (h : ∀ d ∈ c :: rest, (d.WriteTo NewWriter).isDone = true)
    (hi : i + (rest.length + 1) = n) (x : String) (y : List Value) :
    condAnd.loop n (c :: rest) i (Writer.mk x y []) = Outcome.done (Writer.mk
      (x ++ String.intercalate.go (textInAnd c) " AND " (rest.map textInAnd))
      (y ++ ((c :: rest).map fun d => (d.WriteTo NewWriter).args).flatten) []) := by
  induction rest generalizing c i x y with
  | nil =>
    have hc := h c (List.mem_cons_self _ _)
    have hlast : (i : Int) = (n : Int) - 1 := by
      simp only [List.length_nil] at hi
      omega
    rw [condAnd_loop_step n [] c i hc]
    simp [condAnd.loop, hlast, String.intercalate.go]
  | cons c2 rest2 ih =>
    have hc := h c (List.mem_cons_self _ _)
    have hrest : ∀ d ∈ c2 :: rest2, (d.WriteTo NewWriter).isDone = true :=
      fun d hd => h d (List.mem_cons_of_mem _ hd)
    have hnot : (i : Int) ≠ (n : Int) - 1 := by
      simp only [List.length_cons] at hi
      omega
    have hi2 : (i + 1) + (rest2.length + 1) = n := by
      simp only [List.length_cons] at hi
      omega
    rw [condAnd_loop_step n _ c i hc, ih c2 (i + 1) hrest hi2]
    simp [hnot, String.intercalate.go, String.append_assoc, intercalate_go_prefix]

/-- One turn of the loop of an Or node whose child emits successfully. -/
theorem condOr_loop_step (n : Nat) (rest : List Cond) (c : Cond) (i : Nat)
    (hc : (c.WriteTo NewWriter).isDone = true) (x : String) (y : List Value) :
    condOr.loop n (c :: rest) i (Writer.mk x y []) =
      condOr.loop n rest (i + 1) (Writer.mk
        (x ++ textInOr c ++ (if (i : Int) ≠ (n : Int) - 1 then " OR " else ""))
        (y ++ (c.WriteTo NewWriter).args) []) := by
  rw [condOr.loop]
  cases hor : c.isAnd <;> by_cases hi : (i : Int) = (n : Int) - 1 <;>
    simp [unchecked_reliable, hor, WriteTo_done_from c hc, hi, textInOr, String.append_assoc]

theorem condOr_loop_done (n : Nat) (rest : List Cond) (c : Cond) (i : Nat)
    (h : ∀ d ∈ c :: rest, (d.WriteTo NewWriter).isDone = true)
    (hi : i + (rest.length + 1) = n) (x : String) (y : List Value) :
    condOr.loop n (c :: rest) i (Writer.mk x y []) = Outcome.done (Writer.mk
      (x ++ String.intercalate.go (textInOr c) " OR " (rest.map textInOr))
      (y ++ ((c :: rest).map fun d => (d.WriteTo NewWriter).args).flatten) []) := by
  induction rest generalizing c i x y with
  | nil =>
    have hc := h c (List.mem_cons_self _ _)
    have hlast : (i : Int) = (n : Int) - 1 := by
      simp only [List.length_nil] at hi
      omega
    rw [condOr_loop_step n [] c i hc]
    simp [condOr.loop, hlast, String.intercalate.go]
  | cons c2 rest2 ih =>
    have hc := h c (List.mem_cons_self _ _)
    have hrest : ∀ d ∈ c2 :: rest2, (d.WriteTo NewWriter).isDone = true :=
      fun d hd => h d (List.mem_cons_of_mem _ hd)
    have hnot : (i : Int) ≠ (n : Int) - 1 := by
      simp only [List.length_cons] at hi
      omega
    have hi2 : (i + 1) + (rest2.length + 1) = n := by
      simp only [List.length_cons] at hi
      omega
    rw [condOr_loop_step n _ c i hc, ih c2 (i + 1) hrest hi2]
    simp [hnot, String.intercalate.go, String.append_assoc, intercalate_go_prefix]

/-- What `ToSQL` returns for a condition that emits successfully by itself. -/
theorem ToSQL_of_done (c : Cond) (h : (c.WriteTo NewWriter).isDone = true) :
    ToSQL c = Except.ok ((c.WriteTo NewWriter).text, (c.WriteTo NewWriter).args, none) := by
  unfold ToSQL
  cases hw : c.WriteTo NewWriter with
  | done w =>
    cases c with
    | nil => cases hw
    | condEmpty =>
      simp only [Cond.WriteTo, Outcome.done.injEq] at hw
      subst hw
      rfl
    | _ => simp [Cond.isNil, Cond.isEmpty, Outcome.text, Outcome.args]
  | failed e w => rw [hw] at h; cases h
  | panicked p => rw [hw] at h; cases h

/-! ## What the constructors keep -/

theorem And_loop_eq (conds result : List Cond) :
    And.loop conds result = result ++ conds.filter fun c => !droppedByAnd c := by
  induction conds generalizing result with
  | nil => simp [And.loop]
  | cons c rest ih =>
    cases c with
    | condAnd cs => cases cs <;> simp [And.loop, ih, droppedByAnd, Cond.isNil, Cond.isEmpty,
        Cond.isAndOfNone, Cond.isOrOfNone]
    | condOr cs => cases cs <;> simp [And.loop, ih, droppedByAnd, Cond.isNil, Cond.isEmpty,
        Cond.isAndOfNone, Cond.isOrOfNone]
    | _ => simp [And.loop, ih, droppedByAnd, Cond.isNil, Cond.isEmpty,
        Cond.isAndOfNone, Cond.isOrOfNone]

theorem Or_loop_eq (conds result : List Cond) :
    Or.loop conds result = result ++ conds.filter fun c => !droppedByOr c := by
  induction conds generalizing result with
  | nil => simp [Or.loop]
  | cons c rest ih =>
    cases c <;> simp [Or.loop, ih, droppedByOr, Cond.isNil, Cond.isEmpty]

theorem And_eq_filter (conds : List Cond) :
    And conds = Cond.condAnd (conds.filter fun c => !droppedByAnd c) := by
  simp [And, And_loop_eq]

theorem Or_eq_filter (conds : List Cond) :
    Or conds = Cond.condOr (conds.filter fun c => !droppedByOr c) := by
  simp [Or, Or_loop_eq]

/-! ## Counting placeholders -/

theorem countQ_zero_of_beq {s : String} (h : (countQ s == 0) = true) : countQ s = 0 := by
  simpa using h

/-- `WriteMap` into a never-failing sink: one placeholder and one argument
per entry. -/
theorem WriteMap_loop_counts (n : Nat) (op : String) (hop : countQ op = 0)
    (m : List (String × Value)) (hm : (m.all fun e => countQ e.1 == 0) = true)
    (i : Nat) (args : List Value) (x : String) (y : List Value) (w : Writer)
    (h : WriteMap.loop n op m i args (Writer.mk x y []) = Outcome.done w) :
    countQ w.buf = countQ x + m.length ∧
      w.args.length = y.length + args.length + m.length := by
  induction m generalizing i args x with
  | nil =>
    simp only [WriteMap.loop, Outcome.done.injEq] at h
    subst h
    simp [Writer.Append]
  | cons e rest ih =>
    rcases e with ⟨k, v⟩
    simp only [List.all_cons, Bool.and_eq_true] at hm
    have hk : countQ k = 0 := countQ_zero_of_beq hm.1
    have h1 : countQ "?" = 1 := by decide
    have h2 : countQ " AND " = 0 := by decide
    simp only [WriteMap.loop, checked_reliable] at h
    split at h
    · have := ih hm.2 _ _ _ h
      simp only [countQ_append, List.length_append, List.length_cons, List.length_nil] at this ⊢
      omega
    · have := ih hm.2 _ _ _ h
      simp only [countQ_append, List.length_append, List.length_cons, List.length_nil] at this ⊢
      omega

theorem entryArgs_of_isList {k : String} {v : Value} (h : v.isList = true) :
    entryArgs (k, v) = boundValues [v] := by
  cases v <;> simp [Value.isList] at h <;> rfl

theorem entryArgs_of_not_isList {k : String} {v : Value} (h : ¬ v.isList = true) :
    entryArgs (k, v) = [v] := by
  cases v <;> simp [Value.isList] at h <;> rfl

/-- `Eq` into a never-failing sink: as many placeholders and as many
arguments as the entries have arguments of their own. -/
theorem Eq_loop_counts (n : Nat)
    (m : List (String × Value)) (hm : (m.all fun e => countQ e.1 == 0) = true)
    (i : Nat) (args : List Value) (x : String) (y : List Value) (w : Writer)
    (h : Eq.loop n m i args (Writer.mk x y []) = Outcome.done w) :
    countQ w.buf = countQ x + (m.map fun e => (entryArgs e).length).sum ∧
      w.args.length = y.length + args.length + (m.map fun e => (entryArgs e).length).sum := by
  induction m generalizing i args x y with
  | nil =>
    simp only [Eq.loop, Outcome.done.injEq] at h
    subst h
    simp [Writer.Append]
  | cons e rest ih =>
    rcases e with ⟨k, v⟩
    simp only [List.all_cons, Bool.and_eq_true] at hm
    have hk : countQ k = 0 := countQ_zero_of_beq hm.1
    have h1 : countQ "=?" = 1 := by decide
    have h2 : countQ " AND " = 0 := by decide
    have h3 : countQ " IN (" = 0 := by decide
    have h4 : countQ ")" = 0 := by decide
    simp only [Eq.loop, condIn_reliable, List.cons_ne_nil, if_false] at h
    by_cases hl : v.isList = true
    · simp only [hl, if_true] at h
      by_cases hb : boundValues [v] = []
      · simp [hb] at h
      · rw [if_neg hb] at h
        simp only [checked_reliable] at h
        rw [List.map_cons, List.sum_cons, entryArgs_of_isList hl]
        by_cases hi : (i : Int) ≠ (n : Int) - 1
        · rw [if_pos hi] at h
          have := ih hm.2 _ _ _ _ h
          simp only [countQ_append, countQ_placeholders, List.length_append] at this ⊢
          omega
        · rw [if_neg hi] at h
          have := ih hm.2 _ _ _ _ h
          simp only [countQ_append, countQ_placeholders, List.length_append] at this ⊢
          omega
    · simp only [hl, if_false, checked_reliable] at h
      rw [List.map_cons, List.sum_cons, entryArgs_of_not_isList hl]
      by_cases hi : (i : Int) ≠ (n : Int) - 1
      · rw [if_pos hi] at h
        have := ih hm.2 _ _ _ _ h
        simp only [countQ_append, List.length_append, List.length_cons, List.length_nil] at this ⊢
        omega
      · rw [if_neg hi] at h
        have := ih hm.2 _ _ _ _ h
        simp only [countQ_append, List.length_append, List.length_cons, List.length_nil] at this ⊢
        omega

/-- `Neq` into a never-failing sink, as `Eq`. -/
theorem Neq_loop_counts (n : Nat)
    (m : List (String × Value)) (hm : (m.all fun e => countQ e.1 == 0) = true)
    (i : Nat) (args : List Value) (x : String) (y : List Value) (w : Writer)
    (h : Neq.loop n m i args (Writer.mk x y []) = Outcome.done w) :
    countQ w.buf = countQ x + (m.map fun e => (entryArgs e).length).sum ∧
      w.args.length = y.length + args.length + (m.map fun e => (entryArgs e).length).sum := by
  induction m generalizing i args x y with
  | nil =>
    simp only [Neq.loop, Outcome.done.injEq] at h
    subst h
    simp [Writer.Append]
  | cons e rest ih =>
    rcases e with ⟨k, v⟩
    simp only [List.all_cons, Bool.and_eq_true] at hm
    have hk : countQ k = 0 := countQ_zero_of_beq hm.1
    have h1 : countQ "<>?" = 1 := by decide
    have h2 : countQ " AND " = 0 := by decide
    have h3 : countQ " NOT IN (" = 0 := by decide
    have h4 : countQ ")" = 0 := by decide
    simp only [Neq.loop, condNotIn_reliable, List.cons_ne_nil, if_false] at h
    by_cases hl : v.isList = true
    · simp only [hl, if_true] at h
      by_cases hb : boundValues [v] = []
      · simp [hb] at h
      · rw [if_neg hb] at h
        simp only [checked_reliable] at h
        rw [List.map_cons, List.sum_cons, entryArgs_of_isList hl]
        by_cases hi : (i : Int) ≠ (n : Int) - 1
        · rw [if_pos hi] at h
          have := ih hm.2 _ _ _ _ h
          simp only [countQ_append, countQ_placeholders, List.length_append] at this ⊢
          omega
        · rw [if_neg hi] at h
          have := ih hm.2 _ _ _ _ h
          simp only [countQ_append, countQ_placeholders, List.length_append] at this ⊢
          omega
    · simp only [hl, if_false, checked_reliable] at h
      rw [List.map_cons, List.sum_cons, entryArgs_of_not_isList hl]
      by_cases hi : (i : Int) ≠ (n : Int) - 1
      · rw [if_pos hi] at h
        have := ih hm.2 _ _ _ _ h
        simp only [countQ_append, List.length_append, List.length_cons, List.length_nil] at this ⊢
        omega
      · rw [if_neg hi] at h
        have := ih hm.2 _ _ _ _ h
        simp only [countQ_append, List.length_append, List.length_cons, List.length_nil] at this ⊢
        omega

theorem isDone_of_eq_done {o : Outcome} {w : Writer} (h : o = Outcome.done w) :
    o.isDone = true := by
  subst h; rfl

theorem eq_done_of_isDone {o : Outcome} (h : o.isDone = true) :
    o = Outcome.done (Writer.mk o.text o.args o.faults) := by
  cases o with
  | done w => rfl
  | failed e w => cases h
  | panicked p => cases h

/-- An And node that emits successfully has a first child that does. -/
theorem condAnd_loop_child_done (n : Nat) (rest : List Cond) (c : Cond) (i : Nat)
    (x : String) (y : List Value)
    (h : (condAnd.loop n (c :: rest) i (Writer.mk x y [])).isDone = true) :
    (c.WriteTo NewWriter).isDone = true := by
  rw [condAnd.loop] at h
  cases hor : c.isOr <;> simp only [hor, unchecked_reliable, if_true, if_false,
    Bool.false_eq_true, WriteTo_from_fresh] at h <;>
    cases hw : c.WriteTo NewWriter <;> simp [hw, Outcome.shift, Outcome.isDone] at h ⊢

/-- An Or node that emits successfully has a first child that does. -/
theorem condOr_loop_child_done (n : Nat) (rest : List Cond) (c : Cond) (i : Nat)
    (x : String) (y : List Value)
    (h : (condOr.loop n (c :: rest) i (Writer.mk x y [])).isDone = true) :
    (c.WriteTo NewWriter).isDone = true := by
  rw [condOr.loop] at h
  cases hor : c.isAnd <;> simp only [hor, unchecked_reliable, if_true, if_false,
    Bool.false_eq_true, WriteTo_from_fresh] at h <;>
    cases hw : c.WriteTo NewWriter <;> simp [hw, Outcome.shift, Outcome.isDone] at h ⊢

theorem condAnd_loop_children_done (n : Nat) (cs : List Cond) (i : Nat)
    (x : String) (y : List Value)
    (h : (condAnd.loop n cs i (Writer.mk x y [])).isDone = true) :
    ∀ c ∈ cs, (c.WriteTo NewWriter).isDone = true := by
  induction cs generalizing i x y with
  | nil => intro c hc; cases hc
  | cons c rest ih =>
    have hc := condAnd_loop_child_done n rest c i x y h
    rw [condAnd_loop_step n rest c i hc] at h
    intro d hd
    rcases List.mem_cons.mp hd with rfl | hd
    · exact hc
    · exact ih _ _ _ h d hd

theorem condOr_loop_children_done (n : Nat) (cs : List Cond) (i : Nat)
    (x : String) (y : List Value)
    (h : (condOr.loop n cs i (Writer.mk x y [])).isDone = true) :
    ∀ c ∈ cs, (c.WriteTo NewWriter).isDone = true := by
  induction cs generalizing i x y with
  | nil => intro c hc; cases hc
  | cons c rest ih =>
    have hc := condOr_loop_child_done n rest c i x y h
    rw [condOr_loop_step n rest c i hc] at h
    intro d hd
    rcases List.mem_cons.mp hd with rfl | hd
    · exact hc
    · exact ih _ _ _ h d hd

/-- A Not that emits successfully has an operand that does. -/
theorem Not_child_done (c : Cond) (h : ((Cond.Not c).WriteTo NewWriter).isDone = true) :
    (c.WriteTo NewWriter).isDone = true := by
  rw [Cond.WriteTo] at h
  simp only [NewWriter, checked_reliable] at h
  cases hp : (c.isAnd || c.isOr) <;>
    simp only [hp, if_true, if_false, Bool.false_eq_true, WriteTo_from_fresh] at h <;>
    cases hw : c.WriteTo (Writer.mk "" [] []) <;>
    simp [hw, NewWriter, Outcome.shift, Outcome.isDone] at h ⊢

/-- What a Not writes into a never-failing sink when its operand emits
successfully. -/
theorem Not_done_from (c : Cond) (h : (c.WriteTo NewWriter).isDone = true)
    (x : String) (y : List Value) :
    (Cond.Not c).WriteTo (Writer.mk x y []) = Outcome.done
      (Writer.mk (x ++ ("NOT " ++ textInNot c)) (y ++ (c.WriteTo NewWriter).args) []) := by
  rw [Cond.WriteTo]
  simp only [checked_reliable]
  cases hp : (c.isAnd || c.isOr)
  · simp only [if_false, Bool.false_eq_true]
    rw [WriteTo_done_from c h]
    simp [textInNot, hp, String.append_assoc]
  · simp only [if_true]
    rw [WriteTo_done_from c h]
    simp [textInNot, hp, checked_reliable, String.append_assoc]
    rw [show ("NOT (" : String) = "NOT " ++ "(" from by decide, String.append_assoc]

/-- What a Not writes whose operand emits successfully. -/
theorem Not_of_done (c : Cond) (h : (c.WriteTo NewWriter).isDone = true) :
    (Cond.Not c).WriteTo NewWriter = Outcome.done
      (Writer.mk ("NOT " ++ textInNot c) (c.WriteTo NewWriter).args []) := by
  have := Not_done_from c h "" []
  simpa using this

theorem allList_iff (p : Cond → Bool) (cs : List Cond) :
    Cond.allList p cs = true ↔ ∀ c ∈ cs, c.all p = true := by
  induction cs with
  | nil => simp [Cond.allList]
  | cons c rest ih => simp [Cond.allList, ih]

theorem slotsList_eq (cs : List Cond) : Cond.slotsList cs = (cs.map Cond.slots).sum := by
  induction cs with
  | nil => rfl
  | cons c rest ih => simp [Cond.slotsList, ih]

theorem mem_subtreesList (s : Cond) (cs : List Cond) :
    s ∈ Cond.subtreesList cs ↔ ∃ c ∈ cs, s ∈ c.subtrees := by
  induction cs with
  | nil => simp [Cond.subtreesList]
  | cons c rest ih => simp [Cond.subtreesList, ih]

theorem countQ_textInAnd (c : Cond) :
    countQ (textInAnd c) = countQ (c.WriteTo NewWriter).text := by
  unfold textInAnd
  split
  · have h1 : countQ "(" = 0 := by decide
    have h2 : countQ ")" = 0 := by decide
    simp only [countQ_append]
    omega
  · rfl

theorem countQ_textInOr (c : Cond) :
    countQ (textInOr c) = countQ (c.WriteTo NewWriter).text := by
  unfold textInOr
  split
  · have h1 : countQ "(" = 0 := by decide
    have h2 : countQ ")" = 0 := by decide
    simp only [countQ_append]
    omega
  · rfl

theorem countQ_textInNot (c : Cond) :
    countQ (textInNot c) = countQ (c.WriteTo NewWriter).text := by
  unfold textInNot
  split
  · have h1 : countQ "(" = 0 := by decide
    have h2 : countQ ")" = 0 := by decide
    simp only [countQ_append]
    omega
  · rfl

theorem Counts_of_done {c : Cond} (hc : Counts c) (h1 : c.all Cond.exprMatches = true)
    (h2 : c.all Cond.plainHere = true) (hd : (c.WriteTo NewWriter).isDone = true) :
    countQ (c.WriteTo NewWriter).text = c.slots ∧
      (c.WriteTo NewWriter).args.length = c.slots := by
  have := hc h1 h2 _ (eq_done_of_isDone hd)
  simpa using this

theorem condAnd_loop_counts (n : Nat) (cs : List Cond) (hcs : ∀ c ∈ cs, Counts c)
    (h1 : ∀ c ∈ cs, c.all Cond.exprMatches = true)
    (h2 : ∀ c ∈ cs, c.all Cond.plainHere = true)
    (i : Nat) (x : String) (y : List Value) (w : Writer)
    (h : condAnd.loop n cs i (Writer.mk x y []) = Outcome.done w) :
    countQ w.buf = countQ x + Cond.slotsList cs ∧
      w.args.length = y.length + Cond.slotsList cs := by
  induction cs generalizing i x y with
  | nil =>
    simp only [condAnd.loop, Outcome.done.injEq] at h
    subst h
    simp [Cond.slotsList]
  | cons c rest ih =>
    have hd := condAnd_loop_child_done n rest c i x y (isDone_of_eq_done h)
    rw [condAnd_loop_step n rest c i hd] at h
    have hrest := ih (fun d hd => hcs d (List.mem_cons_of_mem _ hd))
      (fun d hd => h1 d (List.mem_cons_of_mem _ hd))
      (fun d hd => h2 d (List.mem_cons_of_mem _ hd)) _ _ _ h
    have hc := Counts_of_done (hcs c (List.mem_cons_self _ _)) (h1 c (List.mem_cons_self _ _))
      (h2 c (List.mem_cons_self _ _)) hd
    have hsep : countQ (if (i : Int) ≠ (n : Int) - 1 then " AND " else "") = 0 := by
      split <;> decide
    simp only [countQ_append, countQ_textInAnd, List.length_append, hsep, Cond.slotsList]
      at hrest ⊢
    omega

theorem condOr_loop_counts (n : Nat) (cs : List Cond) (hcs : ∀ c ∈ cs, Counts c)
    (h1 : ∀ c ∈ cs, c.all Cond.exprMatches = true)
    (h2 : ∀ c ∈ cs, c.all Cond.plainHere = true)
    (i : Nat) (x : String) (y : List Value) (w : Writer)
    (h : condOr.loop n cs i (Writer.mk x y []) = Outcome.done w) :
    countQ w.buf = countQ x + Cond.slotsList cs ∧
      w.args.length = y.length + Cond.slotsList cs := by
  induction cs generalizing i x y with
  | nil =>
    simp only [condOr.loop, Outcome.done.injEq] at h
    subst h
    simp [Cond.slotsList]
  | cons c rest ih =>
    have hd := condOr_loop_child_done n rest c i x y (isDone_of_eq_done h)
    rw [condOr_loop_step n rest c i hd] at h
    have hrest := ih (fun d hd => hcs d (List.mem_cons_of_mem _ hd))
      (fun d hd => h1 d (List.mem_cons_of_mem _ hd))
      (fun d hd => h2 d (List.mem_cons_of_mem _ hd)) _ _ _ h
    have hc := Counts_of_done (hcs c (List.mem_cons_self _ _)) (h1 c (List.mem_cons_self _ _))
      (h2 c (List.mem_cons_self _ _)) hd
    have hsep : countQ (if (i : Int) ≠ (n : Int) - 1 then " OR " else "") = 0 := by
      split <;> decide
    simp only [countQ_append, countQ_textInOr, List.length_append, hsep, Cond.slotsList]
      at hrest ⊢
    omega

/-- Compiled by itself, a tree whose RawExpr nodes match and whose column
names are plain has as many placeholders, and as many arguments, as the claim
counts. -/
theorem WriteTo_counts (c : Cond) : Counts c := by
  induction c using Cond.induction with
  | hAnd cs ih =>
    intro h1 h2 w h
    rw [Cond.all, Bool.and_eq_true, allList_iff] at h1 h2
    rw [Cond.WriteTo] at h
    have := condAnd_loop_counts _ cs ih h1.2 h2.2 _ _ _ w h
    simpa [Cond.slots, countQ] using this
  | hOr cs ih =>
    intro h1 h2 w h
    rw [Cond.all, Bool.and_eq_true, allList_iff] at h1 h2
    rw [Cond.WriteTo] at h
    have := condOr_loop_counts _ cs ih h1.2 h2.2 _ _ _ w h
    simpa [Cond.slots, countQ] using this
  | hNot c ih =>
    intro h1 h2 w h
    rw [Cond.all, Bool.and_eq_true] at h1 h2
    have hd := Not_child_done c (isDone_of_eq_done h)
    rw [Not_of_done c hd, Outcome.done.injEq] at h
    subst h
    have hc := Counts_of_done ih h1.2 h2.2 hd
    have hn : countQ "NOT " = 0 := by decide
    simp only [countQ_append, countQ_textInNot, Cond.slots]
    omega
  | hLeaf c hc =>
    intro h1 h2 w h
    cases c with
    | condAnd cs => cases hc
    | condOr cs => cases hc
    | Not c => cases hc
    | nil => cases h
    | condEmpty =>
      simp only [Cond.WriteTo, Outcome.done.injEq] at h
      subst h
      exact ⟨rfl, rfl⟩
    | expr sql args =>
      simp only [Cond.WriteTo, NewWriter, checked_reliable, Outcome.done.injEq] at h
      subst h
      simp only [Cond.all, Cond.exprMatches, beq_iff_eq] at h1
      simp [Writer.Append, Cond.slots, countQ_append, h1, show countQ "" = 0 from rfl]
    | Eq m =>
      have := Eq_loop_counts _ m (by simpa [Cond.all, Cond.plainHere] using h2) _ _ _ _ w h
      simpa [Cond.slots, countQ] using this
    | Neq m =>
      have := Neq_loop_counts _ m (by simpa [Cond.all, Cond.plainHere] using h2) _ _ _ _ w h
      simpa [Cond.slots, countQ] using this
    | Lt m =>
      have := WriteMap_loop_counts _ "<" (by decide) m
        (by simpa [Cond.all, Cond.plainHere] using h2) _ _ _ _ w h
      simpa [Cond.slots, countQ] using this
    | Lte m =>
      have := WriteMap_loop_counts _ "<=" (by decide) m
        (by simpa [Cond.all, Cond.plainHere] using h2) _ _ _ _ w h
      simpa [Cond.slots, countQ] using this
    | Gt m =>
      have := WriteMap_loop_counts _ ">" (by decide) m
        (by simpa [Cond.all, Cond.plainHere] using h2) _ _ _ _ w h
      simpa [Cond.slots, countQ] using this
    | Gte m =>
      have := WriteMap_loop_counts _ ">=" (by decide) m
        (by simpa [Cond.all, Cond.plainHere] using h2) _ _ _ _ w h
      simpa [Cond.slots, countQ] using this
    | Between col lo hi =>
      simp only [Cond.WriteTo, NewWriter, checked_reliable, Outcome.done.injEq] at h
      subst h
      have hk : countQ col = 0 := countQ_zero_of_beq (by simpa [Cond.all, Cond.plainHere] using h2)
      have hb : countQ " BETWEEN ? AND ?" = 2 := by decide
      simp [Writer.Append, Cond.slots, countQ_append, hk, hb, show countQ "" = 0 from rfl]
    | condIn col vals =>
      have hk : countQ col = 0 := countQ_zero_of_beq (by simpa [Cond.all, Cond.plainHere] using h2)
      simp only [Cond.WriteTo, NewWriter, condIn_reliable] at h
      by_cases hv : vals = []
      · simp [hv] at h
      · by_cases hb : boundValues vals = []
        · simp [hv, hb] at h
        · rw [if_neg hv, if_neg hb, Outcome.done.injEq] at h
          subst h
          have h3 : countQ " IN (" = 0 := by decide
          have h4 : countQ ")" = 0 := by decide
          simp [Cond.slots, countQ_append, countQ_placeholders, hk, h3, h4,
            show countQ "" = 0 from rfl]
    | condNotIn col vals =>
      have hk : countQ col = 0 := countQ_zero_of_beq (by simpa [Cond.all, Cond.plainHere] using h2)
      simp only [Cond.WriteTo, NewWriter, condNotIn_reliable] at h
      by_cases hv : vals = []
      · simp [hv] at h
      · by_cases hb : boundValues vals = []
        · simp [hv, hb] at h
        · rw [if_neg hv, if_neg hb, Outcome.done.injEq] at h
          subst h
          have h3 : countQ " NOT IN (" = 0 := by decide
          have h4 : countQ ")" = 0 := by decide
          simp [Cond.slots, countQ_append, countQ_placeholders, hk, h3, h4,
            show countQ "" = 0 from rfl]
    | Like col frag =>
      simp only [Cond.WriteTo, NewWriter, checked_reliable, Outcome.done.injEq] at h
      subst h
      have hk : countQ col = 0 := countQ_zero_of_beq (by simpa [Cond.all, Cond.plainHere] using h2)
      have hb : countQ " LIKE ?" = 1 := by decide
      simp [Writer.Append, Cond.slots, countQ_append, hk, hb, show countQ "" = 0 from rfl]
    | IsNull col =>
      simp only [Cond.WriteTo, NewWriter, checked_reliable, Outcome.done.injEq] at h
      subst h
      have hk : countQ col = 0 := countQ_zero_of_beq (by simpa [Cond.all, Cond.plainHere] using h2)
      have hb : countQ " IS NULL" = 0 := by decide
      simp [Cond.slots, countQ_append, hk, hb, show countQ "" = 0 from rfl]
    | NotNull col =>
      simp only [Cond.WriteTo, NewWriter, checked_reliable, Outcome.done.injEq] at h
      subst h
      have hk : countQ col = 0 := countQ_zero_of_beq (by simpa [Cond.all, Cond.plainHere] using h2)
      have hb : countQ " IS NOT NULL" = 0 := by decide
      simp [Cond.slots, countQ_append, hk, hb, show countQ "" = 0 from rfl]

theorem all_subtrees (p : Cond → Bool) (c : Cond) : AllInSubtrees p c := by
  induction c using Cond.induction with
  | hAnd cs ih =>
    intro h s hs
    rw [Cond.subtrees, List.mem_cons, mem_subtreesList] at hs
    rcases hs with rfl | ⟨c, hc, hs⟩
    · exact h
    · rw [Cond.all, Bool.and_eq_true, allList_iff] at h
      exact ih c hc (h.2 c hc) s hs
  | hOr cs ih =>
    intro h s hs
    rw [Cond.subtrees, List.mem_cons, mem_subtreesList] at hs
    rcases hs with rfl | ⟨c, hc, hs⟩
    · exact h
    · rw [Cond.all, Bool.and_eq_true, allList_iff] at h
      exact ih c hc (h.2 c hc) s hs
  | hNot c ih =>
    intro h s hs
    rw [Cond.subtrees, List.mem_cons] at hs
    rcases hs with rfl | hs
    · exact h
    · rw [Cond.all, Bool.and_eq_true] at h
      exact ih h.2 s hs
  | hLeaf c hc =>
    intro h s hs
    cases c <;> first | (simp only [Cond.subtrees, List.mem_singleton] at hs; subst hs; exact h) | cases hc

theorem all_mono (p q : Cond → Bool) (hpq : ∀ n, p n = true → q n = true) (c : Cond) :
    AllMono p q c := by
  induction c using Cond.induction with
  | hAnd cs ih =>
    intro h
    rw [Cond.all, Bool.and_eq_true, allList_iff] at h ⊢
    exact ⟨hpq _ h.1, fun c hc => ih c hc (h.2 c hc)⟩
  | hOr cs ih =>
    intro h
    rw [Cond.all, Bool.and_eq_true, allList_iff] at h ⊢
    exact ⟨hpq _ h.1, fun c hc => ih c hc (h.2 c hc)⟩
  | hNot c ih =>
    intro h
    rw [Cond.all, Bool.and_eq_true] at h ⊢
    exact ⟨hpq _ h.1, ih h.2⟩
  | hLeaf c hc =>
    intro h
    cases c <;> first | (simp only [Cond.all] at h ⊢; exact hpq _ h) | cases hc

/-- The sub-trees of a tree that emits successfully by itself do so too. -/
theorem subtrees_done (c : Cond) : SubtreesDone c := by
  induction c using Cond.induction with
  | hAnd cs ih =>
    intro h s hs
    rw [Cond.subtrees, List.mem_cons, mem_subtreesList] at hs
    rcases hs with rfl | ⟨c, hc, hs⟩
    · exact h
    · rw [Cond.WriteTo] at h
      exact ih c hc (condAnd_loop_children_done _ cs _ _ _ h c hc) s hs
  | hOr cs ih =>
    intro h s hs
    rw [Cond.subtrees, List.mem_cons, mem_subtreesList] at hs
    rcases hs with rfl | ⟨c, hc, hs⟩
    · exact h
    · rw [Cond.WriteTo] at h
      exact ih c hc (condOr_loop_children_done _ cs _ _ _ h c hc) s hs
  | hNot c ih =>
    intro h s hs
    rw [Cond.subtrees, List.mem_cons] at hs
    rcases hs with rfl | hs
    · exact h
    · exact ih (Not_child_done c h) s hs
  | hLeaf c hc =>
    intro h s hs
    cases c <;> first | (simp only [Cond.subtrees, List.mem_singleton] at hs; subst hs; exact h) | cases hc

/-- When `ToSQL` returns without error, either the condition is nil and the
result empty, or the result is what the condition wrote into a fresh sink. -/
theorem ToSQL_ok_cases (c : Cond) (t : String) (a : List Value)
    (h : ToSQL c = Except.ok (t, a, none)) :
    (c = Cond.nil ∧ t = "" ∧ a = []) ∨
      ((c.WriteTo NewWriter).isDone = true ∧ (c.WriteTo NewWriter).text = t ∧
        (c.WriteTo NewWriter).args = a) := by
  cases c with
  | nil =>
    left
    simp only [ToSQL, Cond.isNil, if_true, Except.ok.injEq, Prod.mk.injEq] at h
    exact ⟨rfl, h.1.symm, h.2.1.symm⟩
  | condEmpty =>
    right
    simp only [ToSQL, Cond.isNil, Cond.isEmpty, if_true, if_false, Bool.false_eq_true,
      Except.ok.injEq, Prod.mk.injEq] at h
    exact ⟨rfl, h.1, h.2.1⟩
  | _ =>
    right
    simp only [ToSQL, Cond.isNil, Cond.isEmpty, if_false, Bool.false_eq_true] at h
    split at h
    · simp at h
    · simp only [Except.ok.injEq, Prod.mk.injEq] at h
      rename_i w hw
      rw [hw]
      exact ⟨rfl, h.1, h.2.1⟩
    · simp at h

/-! ## Eq and Neq of one list-valued entry -/

theorem Append_nil (w : Writer) : w.Append [] = w := by
  rcases w with ⟨x, y, f⟩
  simp [Writer.Append]

/-- An Eq of one list-valued entry does what the In of that column and list
does, on every sink. -/
theorem Eq_single_list (c : String) (v : Value) (h : v.isList = true) (w : Writer) :
    (Cond.Eq [(c, v)]).WriteTo w = (In c [v]).WriteTo w := by
  simp only [Cond.WriteTo, Eq.WriteTo, Eq.loop, In, h, if_true, List.length_singleton]
  cases condIn.WriteTo c [v] w with
  | done w1 => simp [Append_nil]
  | failed e w1 => rfl
  | panicked p => rfl

/-- A Neq of one list-valued entry does what the NotIn of that column and
list does, on every sink. -/
theorem Neq_single_list (c : String) (v : Value) (h : v.isList = true) (w : Writer) :
    (Cond.Neq [(c, v)]).WriteTo w = (NotIn c [v]).WriteTo w := by
  simp only [Cond.WriteTo, Neq.WriteTo, Neq.loop, NotIn, h, if_true, List.length_singleton]
  cases condNotIn.WriteTo c [v] w with
  | done w1 => simp [Append_nil]
  | failed e w1 => rfl
  | panicked p => rfl

/-! ## Comparisons keyed by a map -/

/-- One turn of the loop of `WriteMap` on a sink that never fails. -/
theorem WriteMap_loop_step (n : Nat) (op : String) (rest : List (String × Value))
    (k : String) (v : Value) (i : Nat) (args : List Value) (x : String) (y : List Value) :
    WriteMap.loop n op ((k, v) :: rest) i args (Writer.mk x y []) =
      WriteMap.loop n op rest (i + 1) (args ++ [v]) (Writer.mk
        (x ++ (k ++ op ++ "?") ++ (if (i : Int) ≠ (n : Int) - 1 then " AND " else "")) y []) := by
  rw [WriteMap.loop]
  simp only [checked_reliable]
  split <;> simp

/-- On a sink that never fails `WriteMap` writes the entries joined by
` AND ` and appends their values in the same order. -/
theorem WriteMap_loop_done (n : Nat) (op : String) (rest : List (String × Value))
    (e : String × Value) (i : Nat) (hi : i + (rest.length + 1) = n)
    (args : List Value) (x : String) (y : List Value) :
    WriteMap.loop n op (e :: rest) i args (Writer.mk x y []) = Outcome.done (Writer.mk
      (x ++ String.intercalate.go (e.1 ++ op ++ "?") " AND "
        (rest.map fun d => d.1 ++ op ++ "?"))
      (y ++ (args ++ (e :: rest).map Prod.snd)) []) := by
  induction rest generalizing e i args x with
  | nil =>
    rcases e with ⟨k, v⟩
    have hlast : (i : Int) = (n : Int) - 1 := by
      simp only [List.length_nil] at hi
      omega
    rw [WriteMap_loop_step]
    simp [WriteMap.loop, hlast, String.intercalate.go, Writer.Append]
  | cons e2 rest2 ih =>
    rcases e with ⟨k, v⟩
    have hnot : (i : Int) ≠ (n : Int) - 1 := by
      simp only [List.length_cons] at hi
      omega
    have hi2 : (i + 1) + (rest2.length + 1) = n := by
      simp only [List.length_cons] at hi
      omega
    rw [WriteMap_loop_step, ih e2 (i + 1) hi2]
    simp [hnot, String.intercalate.go, String.append_assoc, intercalate_go_prefix]

/-- What `ToSQL` returns for a condition emitted by `WriteMap`. -/
theorem WriteMap_fresh (op : String) (m : List (String × Value)) :
    WriteMap NewWriter m op = Outcome.done (Writer.mk
      (String.intercalate " AND " (m.map fun e => e.1 ++ op ++ "?")) (m.map Prod.snd) []) := by
  cases m with
  | nil => rfl
  | cons e rest =>
    have h := WriteMap_loop_done (rest.length + 1) op rest e 0 (by omega) [] "" []
    simpa [WriteMap, NewWriter, String.intercalate] using h

/-! ## Errors of children -/

/-- An And node whose children before `f` emit successfully returns the
error that `f` returns. -/
theorem condAnd_loop_fails (n : Nat) (pre post : List Cond) (f : Cond) (e : Error)
    (hpre : ∀ d ∈ pre, (d.WriteTo NewWriter).isDone = true)
    (hf : (f.WriteTo NewWriter).err = some e) (i : Nat) (x : String) (y : List Value) :
    (condAnd.loop n (pre ++ f :: post) i (Writer.mk x y [])).err = some e := by
  induction pre generalizing i x y with
  | nil =>
    rw [List.nil_append, condAnd.loop]
    cases hor : f.isOr <;>
      simp only [unchecked_reliable, if_true, if_false, Bool.false_eq_true,
        WriteTo_from_fresh] <;>
      cases hw : f.WriteTo NewWriter <;> simp [hw, Outcome.err, Outcome.shift] at hf ⊢ <;>
      exact hf
  | cons c rest ih =>
    rw [List.cons_append, condAnd_loop_step n _ c i (hpre c (List.mem_cons_self _ _))]
    exact ih (fun d hd => hpre d (List.mem_cons_of_mem _ hd)) _ _ _

/-- An Or node whose children before `f` emit successfully returns the error
that `f` returns. -/
theorem condOr_loop_fails (n : Nat) (pre post : List Cond) (f : Cond) (e : Error)
    (hpre : ∀ d ∈ pre, (d.WriteTo NewWriter).isDone = true)
    (hf : (f.WriteTo NewWriter).err = some e) (i : Nat) (x : String) (y : List Value) :
    (condOr.loop n (pre ++ f :: post) i (Writer.mk x y [])).err = some e := by
  induction pre generalizing i x y with
  | nil =>
    rw [List.nil_append, condOr.loop]
    cases hor : f.isAnd <;>
      simp only [unchecked_reliable, if_true, if_false, Bool.false_eq_true,
        WriteTo_from_fresh] <;>
      cases hw : f.WriteTo NewWriter <;> simp [hw, Outcome.err, Outcome.shift] at hf ⊢ <;>
      exact hf
  | cons c rest ih =>
    rw [List.cons_append, condOr_loop_step n _ c i (hpre c (List.mem_cons_self _ _))]
    exact ih (fun d hd => hpre d (List.mem_cons_of_mem _ hd)) _ _ _

/-- What `ToSQL` returns for a condition that returns an error: the error,
the empty text and no argument. -/
theorem ToSQL_of_err (c : Cond) (e : Error) (h : (c.WriteTo NewWriter).err = some e) :
    ToSQL c = Except.ok ("", [], some e) := by
  cases c with
  | nil => simp [Cond.WriteTo, Outcome.err] at h
  | condEmpty => simp [Cond.WriteTo, Outcome.err] at h
  | _ =>
    simp only [ToSQL, Cond.isNil, Cond.isEmpty, Bool.false_eq_true, if_false]
    split
    · rename_i err w hw
      rw [hw] at h
      simp only [Outcome.err, Option.some.injEq] at h
      rw [h]
    · rename_i w hw
      rw [hw] at h
      cases h
    · rename_i p hw
      rw [hw] at h
      cases h

/-! ## Regrouping -/

theorem condAnd_loop_eq_seq (n : Nat) (cs : List Cond) (i : Nat) (hi : i + cs.length = n)
    (w : Writer) : condAnd.loop n cs i w = seqLoop Cond.isOr " AND " cs w := by
  induction cs generalizing i w with
  | nil => simp [condAnd.loop, seqLoop]
  | cons c rest ih =>
    rw [condAnd.loop, seqLoop]
    have hi2 : (i + 1) + rest.length = n := by
      simp only [List.length_cons] at hi
      omega
    have hlast : ((i : Int) ≠ (n : Int) - 1) ↔ rest.isEmpty = false := by
      cases rest with
      | nil => simp at hi2 ⊢; omega
      | cons d ds => simp only [List.length_cons] at hi2; simp; omega
    cases c.WriteTo (if c.isOr = true then unchecked w "(" else w) with
    | done w2 =>
      simp only
      rw [ih (i + 1) hi2]
      congr 1
      cases hr : rest.isEmpty
      · rw [if_pos (hlast.mpr hr)]; simp
      · have : ¬ ((i : Int) ≠ (n : Int) - 1) := fun h => by simp [hlast.mp h] at hr
        rw [if_neg this]; simp
    | failed e w1 => rfl
    | panicked p => rfl

theorem condOr_loop_eq_seq (n : Nat) (cs : List Cond) (i : Nat) (hi : i + cs.length = n)
    (w : Writer) : condOr.loop n cs i w = seqLoop Cond.isAnd " OR " cs w := by
  induction cs generalizing i w with
  | nil => simp [condOr.loop, seqLoop]
  | cons c rest ih =>
    rw [condOr.loop, seqLoop]
    have hi2 : (i + 1) + rest.length = n := by
      simp only [List.length_cons] at hi
      omega
    have hlast : ((i : Int) ≠ (n : Int) - 1) ↔ rest.isEmpty = false := by
      cases rest with
      | nil => simp at hi2 ⊢; omega
      | cons d ds => simp only [List.length_cons] at hi2; simp; omega
    cases c.WriteTo (if c.isAnd = true then unchecked w "(" else w) with
    | done w2 =>
      simp only
      rw [ih (i + 1) hi2]
      congr 1
      cases hr : rest.isEmpty
      · rw [if_pos (hlast.mpr hr)]; simp
      · have : ¬ ((i : Int) ≠ (n : Int) - 1) := fun h => by simp [hlast.mp h] at hr
        rw [if_neg this]; simp
    | failed e w1 => rfl
    | panicked p => rfl

/-- The loop over `mid ++ post` is the loop over `mid`, then the separator if
`post` has a child, then the loop over `post`. -/
theorem seqLoop_append (wrap : Cond → Bool) (sep : String) (mid post : List Cond)
    (hmid : mid ≠ []) (w : Writer) :
    seqLoop wrap sep (mid ++ post) w = (seqLoop wrap sep mid w).andThen fun w1 =>
      seqLoop wrap sep post (if post.isEmpty then w1 else unchecked w1 sep) := by
  induction mid generalizing w with
  | nil => exact absurd rfl hmid
  | cons m rest ih =>
    rw [List.cons_append, seqLoop, seqLoop]
    cases m.WriteTo (if wrap m = true then unchecked w "(" else w) with
    | done w2 =>
      simp only
      cases rest with
      | nil => simp [seqLoop, Outcome.andThen]
      | cons m2 rest2 =>
        rw [ih (List.cons_ne_nil _ _)]
        simp
    | failed e w1 => rfl
    | panicked p => rfl

/-- Before the same children, two lists of last children that the loop
treats alike are treated alike. -/
theorem seqLoop_prefix (wrap : Cond → Bool) (sep : String) (xs ys : List Cond)
    (h : ∀ w, seqLoop wrap sep xs w = seqLoop wrap sep ys w)
    (he : xs.isEmpty = ys.isEmpty) (pre : List Cond) (w : Writer) :
    seqLoop wrap sep (pre ++ xs) w = seqLoop wrap sep (pre ++ ys) w := by
  induction pre generalizing w with
  | nil => exact h w
  | cons p rest ih =>
    rw [List.cons_append, List.cons_append, seqLoop, seqLoop]
    have hemp : (rest ++ xs).isEmpty = (rest ++ ys).isEmpty := by
      cases rest with
      | nil => simpa using he
      | cons d ds => rfl
    cases p.WriteTo (if wrap p = true then unchecked w "(" else w) with
    | done w2 =>
      simp only
      rw [hemp, ih]
    | failed e w1 => rfl
    | panicked p => rfl

/-- An And node with a child among the children of an And node is emitted as
its children in its place. -/
theorem seqLoop_And_in_And (pre mid post : List Cond) (hmid : mid ≠ []) (w : Writer) :
    seqLoop Cond.isOr " AND " (pre ++ Cond.condAnd mid :: post) w =
      seqLoop Cond.isOr " AND " (pre ++ (mid ++ post)) w := by
  apply seqLoop_prefix
  · intro w1
    rw [seqLoop_append _ _ mid post hmid, seqLoop]
    simp only [Cond.isOr, Bool.false_eq_true, if_false, Cond.WriteTo]
    rw [condAnd_loop_eq_seq _ mid 0 (by omega)]
    cases seqLoop Cond.isOr " AND " mid w1 <;> rfl
  · cases mid with
    | nil => exact absurd rfl hmid
    | cons m ms => rfl

/-- An Or node with a child among the children of an Or node is emitted as
its children in its place. -/
theorem seqLoop_Or_in_Or (pre mid post : List Cond) (hmid : mid ≠ []) (w : Writer) :
    seqLoop Cond.isAnd " OR " (pre ++ Cond.condOr mid :: post) w =
      seqLoop Cond.isAnd " OR " (pre ++ (mid ++ post)) w := by
  apply seqLoop_prefix
  · intro w1
    rw [seqLoop_append _ _ mid post hmid, seqLoop]
    simp only [Cond.isAnd, Bool.false_eq_true, if_false, Cond.WriteTo]
    rw [condOr_loop_eq_seq _ mid 0 (by omega)]
    cases seqLoop Cond.isAnd " OR " mid w1 <;> rfl
  · cases mid with
    | nil => exact absurd rfl hmid
    | cons m ms => rfl

/-- `ToSQL` of an And node is decided by the loop over its children. -/
theorem ToSQL_condAnd_congr (xs ys : List Cond)
    (h : seqLoop Cond.isOr " AND " xs NewWriter = seqLoop Cond.isOr " AND " ys NewWriter) :
    ToSQL (Cond.condAnd xs) = ToSQL (Cond.condAnd ys) := by
  simp only [ToSQL, Cond.isNil, Cond.isEmpty, Bool.false_eq_true, if_false, Cond.WriteTo]
  rw [condAnd_loop_eq_seq _ xs 0 (by omega), condAnd_loop_eq_seq _ ys 0 (by omega), h]

/-- `ToSQL` of an Or node is decided by the loop over its children. -/
theorem ToSQL_condOr_congr (xs ys : List Cond)
    (h : seqLoop Cond.isAnd " OR " xs NewWriter = seqLoop Cond.isAnd " OR " ys NewWriter) :
    ToSQL (Cond.condOr xs) = ToSQL (Cond.condOr ys) := by
  simp only [ToSQL, Cond.isNil, Cond.isEmpty, Bool.false_eq_true, if_false, Cond.WriteTo]
  rw [condOr_loop_eq_seq _ xs 0 (by omega), condOr_loop_eq_seq _ ys 0 (by omega), h]

theorem droppedByAnd_condAnd (xs : List Cond) :
    droppedByAnd (Cond.condAnd xs) = xs.isEmpty := by
  cases xs <;> rfl

theorem droppedByOr_condOr (xs : List Cond) : droppedByOr (Cond.condOr xs) = false := rfl

/-- `And` given an And node made by `And` first compiles as `And` given that
node's inputs in its place. -/
theorem And_nest_left (xs ys : List Cond) :
    ToSQL (And (And xs :: ys)) = ToSQL (And (xs ++ ys)) := by
  rw [And_eq_filter (And xs :: ys), And_eq_filter (xs ++ ys), And_eq_filter xs,
    List.filter_append, List.filter_cons, droppedByAnd_condAnd]
  cases hX : List.filter (fun c => !droppedByAnd c) xs with
  | nil => rfl
  | cons x X =>
    apply ToSQL_condAnd_congr
    simpa using seqLoop_And_in_And [] (x :: X) (List.filter (fun c => !droppedByAnd c) ys)
      (List.cons_ne_nil _ _) NewWriter

/-- `And` given an And node made by `And` last compiles as `And` given that
node's inputs in its place. -/
theorem And_nest_right (xs ys : List Cond) :
    ToSQL (And (xs ++ [And ys])) = ToSQL (And (xs ++ ys)) := by
  rw [And_eq_filter (xs ++ [And ys]), And_eq_filter (xs ++ ys), And_eq_filter ys,
    List.filter_append, List.filter_append, List.filter_cons, droppedByAnd_condAnd]
  cases hY : List.filter (fun c => !droppedByAnd c) ys with
  | nil => rfl
  | cons y Y =>
    apply ToSQL_condAnd_congr
    simpa using seqLoop_And_in_And (List.filter (fun c => !droppedByAnd c) xs) (y :: Y) []
      (List.cons_ne_nil _ _) NewWriter

/-- `Or` given an Or node made by `Or` first compiles as `Or` given that
node's inputs in its place, unless the node has no child and a child
follows. -/
theorem Or_nest_left (xs ys : List Cond)
    (h : List.filter (fun c => !droppedByOr c) xs ≠ [] ∨
      List.filter (fun c => !droppedByOr c) ys = []) :
    ToSQL (Or (Or xs :: ys)) = ToSQL (Or (xs ++ ys)) := by
  rw [Or_eq_filter (Or xs :: ys), Or_eq_filter (xs ++ ys), Or_eq_filter xs,
    List.filter_append, List.filter_cons, droppedByOr_condOr]
  simp only [Bool.not_false, if_true]
  cases hX : List.filter (fun c => !droppedByOr c) xs with
  | nil =>
    rcases h with h | h
    · exact absurd hX h
    · rw [h]; rfl
  | cons x X =>
    apply ToSQL_condOr_congr
    simpa using seqLoop_Or_in_Or [] (x :: X) (List.filter (fun c => !droppedByOr c) ys)
      (List.cons_ne_nil _ _) NewWriter

/-- `Or` given an Or node made by `Or` last compiles as `Or` given that
node's inputs in its place, unless the node has no child and a child comes
before it. -/
theorem Or_nest_right (xs ys : List Cond)
    (h : List.filter (fun c => !droppedByOr c) ys ≠ [] ∨
      List.filter (fun c => !droppedByOr c) xs = []) :
    ToSQL (Or (xs ++ [Or ys])) = ToSQL (Or (xs ++ ys)) := by
  rw [Or_eq_filter (xs ++ [Or ys]), Or_eq_filter (xs ++ ys), Or_eq_filter ys,
    List.filter_append, List.filter_append, List.filter_cons, droppedByOr_condOr]
  simp only [Bool.not_false, if_true, List.filter_nil]
  cases hY : List.filter (fun c => !droppedByOr c) ys with
  | nil =>
    rcases h with h | h
    · exact absurd hY h
    · rw [h]; rfl
  | cons y Y =>
    apply ToSQL_condOr_congr
    simpa using seqLoop_Or_in_Or (List.filter (fun c => !droppedByOr c) xs) (y :: Y) []
      (List.cons_ne_nil _ _) NewWriter

theorem filter_ne_nil_of_any {p : Cond → Bool} {l : List Cond} (h : l.any p = true) :
    l.filter p ≠ [] := by
  intro hf
  rw [List.filter_eq_nil_iff] at hf
  rw [List.any_eq_true] at h
  rcases h with ⟨x, hx, hp⟩
  exact hf x hx hp

theorem filter_eq_nil_of_all {p : Cond → Bool} {l : List Cond} (h : l.all p = true) :
    l.filter (fun c => !p c) = [] := by
  rw [List.filter_eq_nil_iff]
  intro x hx
  rw [List.all_eq_true] at h
  simp [h x hx]

/-- The And node of a kept condition and `And(more...)` compiles as
`And(a, more...)` when `And` keeps one of `more`. -/
theorem pair_And_ToSQL (a : Cond) (more : List Cond) (ha : droppedByAnd a = false)
    (hm : more.any (fun c => !droppedByAnd c) = true) :
    ToSQL (Cond.condAnd [a, And more]) = ToSQL (And (a :: more)) := by
  rw [And_eq_filter (a :: more), And_eq_filter more, List.filter_cons, ha]
  simp only [Bool.not_false, if_true]
  apply ToSQL_condAnd_congr
  simpa using seqLoop_And_in_And [a] _ [] (filter_ne_nil_of_any hm) NewWriter

/-- The Or node of a kept condition and `Or(more...)` compiles as
`Or(a, more...)` when `Or` keeps one of `more`. -/
theorem pair_Or_ToSQL (a : Cond) (more : List Cond) (ha : droppedByOr a = false)
    (hm : more.any (fun c => !droppedByOr c) = true) :
    ToSQL (Cond.condOr [a, Or more]) = ToSQL (Or (a :: more)) := by
  rw [Or_eq_filter (a :: more), Or_eq_filter more, List.filter_cons, ha]
  simp only [Bool.not_false, if_true]
  apply ToSQL_condOr_congr
  simpa using seqLoop_Or_in_Or [a] _ [] (filter_ne_nil_of_any hm) NewWriter

/-- A condition that emits successfully and is no Or node, followed in an And
node by an And node without child, compiles to its text followed by
` AND `. -/
theorem pair_And_of_nothing (a : Cond) (ha : a.isOr = false)
    (hd : (a.WriteTo NewWriter).isDone = true) :
    ToSQL (Cond.condAnd [a, Cond.condAnd []]) =
      Except.ok ((a.WriteTo NewWriter).text ++ " AND ", (a.WriteTo NewWriter).args, none) := by
  have hl : condAnd.loop 2 [a, Cond.condAnd []] 0 NewWriter = _ :=
    condAnd_loop_done 2 [Cond.condAnd []] a 0
      (by
        intro d hd2
        simp only [List.mem_cons, List.mem_singleton, List.not_mem_nil, or_false] at hd2
        rcases hd2 with rfl | rfl
        · exact hd
        · rfl)
      rfl "" []
  simp only [ToSQL, Cond.isNil, Cond.isEmpty, Bool.false_eq_true, if_false, Cond.WriteTo,
    List.length_cons, List.length_nil]
  rw [hl]
  have ht : textInAnd (Cond.condAnd []) = "" := rfl
  have hta : textInAnd a = (a.WriteTo NewWriter).text := by simp [textInAnd, ha]
  have hargs : ((Cond.condAnd []).WriteTo NewWriter).args = [] := rfl
  simp [String.intercalate.go, ht, hta, hargs]

/-- A condition that emits successfully and is no And node, followed in an Or
node by an Or node without child, compiles to its text followed by ` OR `. -/
theorem pair_Or_of_nothing (a : Cond) (ha : a.isAnd = false)
    (hd : (a.WriteTo NewWriter).isDone = true) :
    ToSQL (Cond.condOr [a, Cond.condOr []]) =
      Except.ok ((a.WriteTo NewWriter).text ++ " OR ", (a.WriteTo NewWriter).args, none) := by
  have hl : condOr.loop 2 [a, Cond.condOr []] 0 NewWriter = _ :=
    condOr_loop_done 2 [Cond.condOr []] a 0
      (by
        intro d hd2
        simp only [List.mem_cons, List.mem_singleton, List.not_mem_nil, or_false] at hd2
        rcases hd2 with rfl | rfl
        · exact hd
        · rfl)
      rfl "" []
  simp only [ToSQL, Cond.isNil, Cond.isEmpty, Bool.false_eq_true, if_false, Cond.WriteTo,
    List.length_cons, List.length_nil]
  rw [hl]
  have ht : textInOr (Cond.condOr []) = "" := rfl
  have hta : textInOr a = (a.WriteTo NewWriter).text := by simp [textInOr, ha]
  have hargs : ((Cond.condOr []).WriteTo NewWriter).args = [] := rfl
  simp [String.intercalate.go, ht, hta, hargs]

theorem isTerm_methods (a : Cond) (more : List Cond) (h : a.isTerm = true) :
    a.And more = Except.ok (Cond.condAnd [a, And more]) ∧
    a.Or more = Except.ok (Cond.condOr [a, Or more]) := by
  cases a <;> first | exact ⟨rfl, rfl⟩ | cases h

theorem isTerm_kept (a : Cond) (h : a.isTerm = true) :
    droppedByAnd a = false ∧ droppedByOr a = false ∧ a.isOr = false ∧ a.isAnd = false := by
  cases a <;> first | exact ⟨rfl, rfl, rfl, rfl⟩ | cases h

theorem And_of_nothing (more : List Cond) (h : more.all droppedByAnd = true) :
    And more = Cond.condAnd [] := by
  rw [And_eq_filter, filter_eq_nil_of_all h]

theorem Or_of_nothing (more : List Cond) (h : more.all droppedByOr = true) :
    Or more = Cond.condOr [] := by
  rw [Or_eq_filter, filter_eq_nil_of_all h]

theorem And_skips_Empty (more : List Cond) : And (Cond.condEmpty :: more) = And more := by
  rw [And_eq_filter, And_eq_filter]
  rfl

theorem Or_skips_Empty (more : List Cond) : Or (Cond.condEmpty :: more) = Or more := by
  rw [Or_eq_filter, Or_eq_filter]
  rfl

theorem Or_pair (a : Cond) (more : List Cond) (ha : droppedByOr a = false) :
    Or [a, Or more] = Cond.condOr [a, Or more] := by
  rw [Or_eq_filter [a, Or more]]
  have h2 : droppedByOr (Or more) = false := rfl
  simp [List.filter_cons, ha, h2]

/-! ## Runs that visit a map in different orders -/

theorem perm_eq_of_length_le_one {α : Type} {m m2 : List α} (h : m2.Perm m)
    (hl : m.length ≤ 1) : m2 = m := by
  cases m with
  | nil => exact List.Perm.eq_nil h
  | cons x rest =>
    cases rest with
    | nil => exact List.perm_singleton.mp h
    | cons y rest2 => simp at hl

theorem ReorderedList_eq (cs : List Cond) (h : ∀ c ∈ cs, OneOrder c) (ds : List Cond)
    (hr : ReorderedList cs ds) (hs : ∀ c ∈ cs, c.singleKeyed = true) : ds = cs := by
  induction cs generalizing ds with
  | nil => simpa [ReorderedList] using hr
  | cons c rest ih =>
    rw [ReorderedList] at hr
    obtain ⟨e, es, rfl, he, hes⟩ := hr
    rw [h c (List.mem_cons_self _ _) e he (hs c (List.mem_cons_self _ _)),
      ih (fun d hd => h d (List.mem_cons_of_mem _ hd)) es hes
        (fun d hd => hs d (List.mem_cons_of_mem _ hd))]

/-- A tree in which no map has more than one key is visited alike by every
run. -/
theorem Reordered_eq (c : Cond) : OneOrder c := by
  induction c using Cond.induction with
  | hAnd cs ih =>
    intro d hr hs
    rw [Reordered] at hr
    obtain ⟨ds, rfl, hds⟩ := hr
    rw [Cond.singleKeyed, Cond.all, Bool.and_eq_true, allList_iff] at hs
    rw [ReorderedList_eq cs ih ds hds hs.2]
  | hOr cs ih =>
    intro d hr hs
    rw [Reordered] at hr
    obtain ⟨ds, rfl, hds⟩ := hr
    rw [Cond.singleKeyed, Cond.all, Bool.and_eq_true, allList_iff] at hs
    rw [ReorderedList_eq cs ih ds hds hs.2]
  | hNot c ih =>
    intro d hr hs
    rw [Reordered] at hr
    obtain ⟨e, rfl, he⟩ := hr
    rw [Cond.singleKeyed, Cond.all, Bool.and_eq_true] at hs
    rw [ih e he hs.2]
  | hLeaf c hc =>
    intro d hr hs
    cases c with
    | condAnd cs => cases hc
    | condOr cs => cases hc
    | Not c => cases hc
    | Eq m =>
      rw [Reordered] at hr
      obtain ⟨m2, rfl, hp⟩ := hr
      rw [perm_eq_of_length_le_one hp (by simpa [Cond.singleKeyed, Cond.all, Cond.mapSize] using hs)]
    | Neq m =>
      rw [Reordered] at hr
      obtain ⟨m2, rfl, hp⟩ := hr
      rw [perm_eq_of_length_le_one hp (by simpa [Cond.singleKeyed, Cond.all, Cond.mapSize] using hs)]
    | Lt m =>
      rw [Reordered] at hr
      obtain ⟨m2, rfl, hp⟩ := hr
      rw [perm_eq_of_length_le_one hp (by simpa [Cond.singleKeyed, Cond.all, Cond.mapSize] using hs)]
    | Lte m =>
      rw [Reordered] at hr
      obtain ⟨m2, rfl, hp⟩ := hr
      rw [perm_eq_of_length_le_one hp (by simpa [Cond.singleKeyed, Cond.all, Cond.mapSize] using hs)]
    | Gt m =>
      rw [Reordered] at hr
      obtain ⟨m2, rfl, hp⟩ := hr
      rw [perm_eq_of_length_le_one hp (by simpa [Cond.singleKeyed, Cond.all, Cond.mapSize] using hs)]
    | Gte m =>
      rw [Reordered] at hr
      obtain ⟨m2, rfl, hp⟩ := hr
      rw [perm_eq_of_length_le_one hp (by simpa [Cond.singleKeyed, Cond.all, Cond.mapSize] using hs)]
    | _ => rw [Reordered] at hr; exact hr

/-- The trees of a list in which no map has more than one key are visited
alike by every run. -/
theorem ReorderedList_eq_of_singleKeyed (cs ds : List Cond) (hr : ReorderedList cs ds)
    (hs : ∀ c ∈ cs, c.singleKeyed = true) : ds = cs :=
  ReorderedList_eq cs (fun c _ => Reordered_eq c) ds hr hs

theorem ReorderedList_refl (cs : List Cond) (h : ∀ c ∈ cs, Reordered c c) :
    ReorderedList cs cs := by
  induction cs with
  | nil => rw [ReorderedList]
  | cons c rest ih =>
    rw [ReorderedList]
    exact ⟨c, rest, rfl, h c (List.mem_cons_self _ _),
      ih fun d hd => h d (List.mem_cons_of_mem _ hd)⟩

/-- A run may visit a tree as any run does. -/
theorem Reordered_refl (c : Cond) : Reordered c c := by
  induction c using Cond.induction with
  | hAnd cs ih => rw [Reordered]; exact ⟨cs, rfl, ReorderedList_refl cs ih⟩
  | hOr cs ih => rw [Reordered]; exact ⟨cs, rfl, ReorderedList_refl cs ih⟩
  | hNot c ih => rw [Reordered]; exact ⟨c, rfl, ih⟩
  | hLeaf c hc =>
    cases c <;> first
      | (cases hc; done)
      | (rw [Reordered]; exact ⟨_, rfl, List.Perm.refl _⟩)
      | (rw [Reordered])

/-! ## The shared array of `condOr.Or` -/

/-- The write of `condOr.Or` into a shared array.  `o := Or(IsNull a, nil)`
has one child and capacity two; `r := o.Or(IsNull b)` then has the children
`IsNull a` and `Or(IsNull b)` in the array of `o`; a second call
`o.Or(IsNull c)` writes `Or(IsNull c)` over the second child of `r`.  What
`Cond.Or` gives is each node as its call returns it. -/
theorem condOr_Or_shared_array :
    Or [Cond.IsNull "a", Cond.nil] = Cond.condOr [Cond.IsNull "a"] ∧
    Cond.Or (Cond.condOr [Cond.IsNull "a"]) [Cond.IsNull "b"] =
      Except.ok (Cond.condOr [Cond.IsNull "a", Cond.condOr [Cond.IsNull "b"]]) ∧
    Cond.Or (Cond.condOr [Cond.IsNull "a"]) [Cond.IsNull "c"] =
      Except.ok (Cond.condOr [Cond.IsNull "a", Cond.condOr [Cond.IsNull "c"]]) ∧
    condOr.Or.seenBy [Cond.IsNull "a"] 2 (Or [Cond.IsNull "c"])
        [Cond.IsNull "a", Cond.condOr [Cond.IsNull "b"]] =
      [Cond.IsNull "a", Cond.condOr [Cond.IsNull "c"]] ∧
    condOr.Or.seenBy [Cond.IsNull "a"] 1 (Or [Cond.IsNull "c"])
        [Cond.IsNull "a", Cond.condOr [Cond.IsNull "b"]] =
      [Cond.IsNull "a", Cond.condOr [Cond.IsNull "b"]] :=
  ⟨rfl, rfl, rfl, rfl, rfl⟩

/-! ## Construction: what `And` and `Or` keep -/

/-- C7: the children of `And(conds...)` are exactly the inputs that are not
nil, not Empty, not an And node with zero children and not an Or node with
zero children, in input order; in particular a nested And or Or node with at
least one child is kept as one child. -/
theorem And_keeps_exactly (conds : List Cond) :
    And conds = Cond.condAnd (conds.filter fun c => !droppedByAnd c) ∧
    (∀ c, droppedByAnd c = true ↔
      (c = Cond.nil ∨ c = Cond.condEmpty ∨ c = Cond.condAnd [] ∨ c = Cond.condOr [])) ∧
    (∀ c ∈ conds, ∀ x xs, (c = Cond.condAnd (x :: xs) ∨ c = Cond.condOr (x :: xs)) →
      c ∈ (And conds).children) := by
  have h := And_eq_filter conds
  refine ⟨h, ?_, ?_⟩
  · intro c
    cases c with
    | condAnd cs => cases cs <;> simp [droppedByAnd]
    | condOr cs => cases cs <;> simp [droppedByAnd]
    | _ => simp [droppedByAnd]
  · intro c hc x xs hx
    rw [h]
    rcases hx with rfl | rfl <;> simp [Cond.children, List.mem_filter, hc, droppedByAnd]

/-- C8: the children of `Or(conds...)` are exactly the inputs that are neither
nil nor Empty, in input order; in particular an And node or an Or node with
zero children is kept as a child. -/
theorem Or_keeps_exactly (conds : List Cond) :
    Or conds = Cond.condOr (conds.filter fun c => !droppedByOr c) ∧
    (∀ c, droppedByOr c = true ↔ (c = Cond.nil ∨ c = Cond.condEmpty)) ∧
    (∀ c ∈ conds, (c = Cond.condAnd [] ∨ c = Cond.condOr []) → c ∈ (Or conds).children) := by
  have h := Or_eq_filter conds
  refine ⟨h, ?_, ?_⟩
  · intro c
    cases c <;> simp [droppedByOr]
  · intro c hc hx
    rw [h]
    rcases hx with rfl | rfl <;> simp [Cond.children, List.mem_filter, hc, droppedByOr]

/-! ## Emission of And and Or nodes -/

/-- C9: an And node whose children each emit successfully compiles to the
children's texts in order joined by " AND ", a child being in parentheses
exactly when it is an Or node, and to the concatenation of the children's
argument lists in the same order; the text and arguments of a child are the
ones `ToSQL` returns for it. -/
theorem condAnd_ToSQL_joins (cs : List Cond)
    (h : ∀ c ∈ cs, (c.WriteTo NewWriter).isDone = true) :
    ToSQL (Cond.condAnd cs) = Except.ok
      (String.intercalate " AND " (cs.map textInAnd),
       (cs.map fun c => (c.WriteTo NewWriter).args).flatten, none) ∧
    (∀ c ∈ cs, ToSQL c =
      Except.ok ((c.WriteTo NewWriter).text, (c.WriteTo NewWriter).args, none)) ∧
    (∀ c, textInAnd c = if c.isOr then "(" ++ (c.WriteTo NewWriter).text ++ ")"
      else (c.WriteTo NewWriter).text) := by
  refine ⟨?_, fun c hc => ToSQL_of_done c (h c hc), fun c => rfl⟩
  cases cs with
  | nil => rfl
  | cons c rest =>
    have hl : condAnd.loop (rest.length + 1) (c :: rest) 0 NewWriter = _ :=
      condAnd_loop_done (rest.length + 1) rest c 0 h (by omega) "" []
    simp only [ToSQL, Cond.isNil, Cond.isEmpty, Cond.WriteTo, List.length_cons]
    rw [hl]
    simp [String.intercalate]

/-- C9, the witness: `And(Eq[a:1], Or(Eq[b:2], Eq[c:3]))` compiles to
`a=? AND (b=? OR c=?)` with arguments `[1, 2, 3]`. -/
theorem condAnd_ToSQL_joins_witness :
    ToSQL (And [Cond.Eq [("a", Value.int 1)],
        Or [Cond.Eq [("b", Value.int 2)], Cond.Eq [("c", Value.int 3)]]]) =
      Except.ok ("a=? AND (b=? OR c=?)", [Value.int 1, Value.int 2, Value.int 3], none) :=
  (condAnd_ToSQL_joins [Cond.Eq [("a", Value.int 1)],
    Cond.condOr [Cond.Eq [("b", Value.int 2)], Cond.Eq [("c", Value.int 3)]]] (by decide)).1

/-- C10: an Or node whose children each emit successfully compiles to the
children's texts in order joined by " OR ", a child being in parentheses
exactly when it is an And node (an Or child and a leaf are not), and to the
concatenation of the children's argument lists in the same order. -/
theorem condOr_ToSQL_joins (cs : List Cond)
    (h : ∀ c ∈ cs, (c.WriteTo NewWriter).isDone = true) :
    ToSQL (Cond.condOr cs) = Except.ok
      (String.intercalate " OR " (cs.map textInOr),
       (cs.map fun c => (c.WriteTo NewWriter).args).flatten, none) ∧
    (∀ c ∈ cs, ToSQL c =
      Except.ok ((c.WriteTo NewWriter).text, (c.WriteTo NewWriter).args, none)) ∧
    (∀ c, textInOr c = if c.isAnd then "(" ++ (c.WriteTo NewWriter).text ++ ")"
      else (c.WriteTo NewWriter).text) := by
  refine ⟨?_, fun c hc => ToSQL_of_done c (h c hc), fun c => rfl⟩
  cases cs with
  | nil => rfl
  | cons c rest =>
    have hl : condOr.loop (rest.length + 1) (c :: rest) 0 NewWriter = _ :=
      condOr_loop_done (rest.length + 1) rest c 0 h (by omega) "" []
    simp only [ToSQL, Cond.isNil, Cond.isEmpty, Cond.WriteTo, List.length_cons]
    rw [hl]
    simp [String.intercalate]

/-- C10, the witness: `Or(And(IsNull a, IsNull b), Or(Like(c, x)), Eq[d:4])`
compiles to `(a IS NULL AND b IS NULL) OR c LIKE ? OR d=?`: the And child is
in parentheses, the Or child and the leaf are not. -/
theorem condOr_ToSQL_joins_witness :
    ToSQL (Or [And [Cond.IsNull "a", Cond.IsNull "b"], Or [Cond.Like "c" "x"],
        Cond.Eq [("d", Value.int 4)]]) =
      Except.ok ("(a IS NULL AND b IS NULL) OR c LIKE ? OR d=?",
        [Value.str "%x%", Value.int 4], none) :=
  (condOr_ToSQL_joins [Cond.condAnd [Cond.IsNull "a", Cond.IsNull "b"],
    Cond.condOr [Cond.Like "c" "x"], Cond.Eq [("d", Value.int 4)]] (by decide)).1

/-! ## Argument order of Eq and Neq -/

/-- C1 (the code breaks it): the arguments of an Eq or Neq condition should be
the concatenation of the entries' own arguments in emission order.  For the
entries `a: 1`, `b: [2, 3]` emitted in that order the text is
`a=? AND b IN (?,?)` and the entries' arguments are `[1, 2, 3]`, but `ToSQL`
returns `[2, 3, 1]`: the scalar is appended only after the loop, the list
elements inside it.  With the list entry emitted first the order is right. -/
theorem Eq_scalar_before_list_misaligned :
    ToSQL (Cond.Eq [("a", Value.int 1), ("b", Value.ints [2, 3])]) =
      Except.ok ("a=? AND b IN (?,?)", [Value.int 2, Value.int 3, Value.int 1], none) ∧
    ToSQL (Cond.Neq [("a", Value.int 1), ("b", Value.ints [2, 3])]) =
      Except.ok ("a<>? AND b NOT IN (?,?)", [Value.int 2, Value.int 3, Value.int 1], none) ∧
    ([("a", Value.int 1), ("b", Value.ints [2, 3])].map entryArgs).flatten =
      [Value.int 1, Value.int 2, Value.int 3] ∧
    ToSQL (Cond.Eq [("b", Value.ints [2, 3]), ("a", Value.int 1)]) =
      Except.ok ("b IN (?,?) AND a=?", [Value.int 2, Value.int 3, Value.int 1], none) := by
  decide

/-! ## Set membership -/

/-- C5 (the code breaks it): emitting In or NotIn into the default sink
returns the empty-value-list error exactly when there is no value argument,
and completes when there is a value to bind; but when the first value
argument is a list of a supported kind with zero elements the slice
`questionMark[:len(questionMark)-1]` is out of range and the program panics,
whatever the column and the further arguments. -/
theorem In_outcomes (col : String) (vals : List Value) :
    ((In col vals).WriteTo NewWriter =
        Outcome.failed (Error.new "No in conditions") NewWriter ↔ vals = []) ∧
    ((NotIn col vals).WriteTo NewWriter =
        Outcome.failed (Error.new "No in conditions") NewWriter ↔ vals = []) ∧
    (vals ≠ [] → boundValues vals ≠ [] →
      ((In col vals).WriteTo NewWriter).isDone = true ∧
      ((NotIn col vals).WriteTo NewWriter).isDone = true) ∧
    (∀ v rest, vals = v :: rest → v.elems = some [] →
      (In col vals).WriteTo NewWriter = Outcome.panicked Panic.sliceBounds ∧
      (NotIn col vals).WriteTo NewWriter = Outcome.panicked Panic.sliceBounds) ∧
    (In "id" [Value.ints []]).WriteTo NewWriter = Outcome.panicked Panic.sliceBounds ∧
    (NotIn "id" [Value.strs []]).WriteTo NewWriter = Outcome.panicked Panic.sliceBounds := by
  have hin := condIn_reliable col vals "" []
  have hnot := condNotIn_reliable col vals "" []
  have e1 : (In col vals).WriteTo NewWriter = condIn.WriteTo col vals (Writer.mk "" [] []) := rfl
  have e2 : (NotIn col vals).WriteTo NewWriter =
      condNotIn.WriteTo col vals (Writer.mk "" [] []) := rfl
  rw [e1, e2, hin, hnot]
  refine ⟨?_, ?_, ?_, ?_, by decide, by decide⟩
  · by_cases h : vals = []
    · simp [h, NewWriter]
    · by_cases hb : boundValues vals = [] <;> simp [h, hb]
  · by_cases h : vals = []
    · simp [h, NewWriter]
    · by_cases hb : boundValues vals = [] <;> simp [h, hb]
  · intro h hb
    simp [h, hb, Outcome.isDone]
  · intro v rest h he
    subst h
    simp [boundValues, he]

/-- C6 (the code breaks it): for value arguments `vs` that are not none,
`ToSQL(In(c, vs...))` is the column, ` IN (`, one placeholder per bound value
joined by commas and `)`, with the bound values as arguments, and NotIn the
same with ` NOT IN (`; the bound values are the claimed value set whenever
there is one to bind.  But when `vs[0]` is a list of a supported kind with
zero elements, where the claim has the value set be `vs` itself, the program
panics. -/
theorem In_ToSQL (c : String) (vs : List Value) :
    ToSQL (In c vs) =
      (if vs = [] then Except.ok ("", [], some (Error.new "No in conditions"))
       else if boundValues vs = [] then Except.error Panic.sliceBounds
       else Except.ok (c ++ " IN (" ++ placeholders (claimedValues vs).length ++ ")",
          claimedValues vs, none)) ∧
    ToSQL (NotIn c vs) =
      (if vs = [] then Except.ok ("", [], some (Error.new "No in conditions"))
       else if boundValues vs = [] then Except.error Panic.sliceBounds
       else Except.ok (c ++ " NOT IN (" ++ placeholders (claimedValues vs).length ++ ")",
          claimedValues vs, none)) ∧
    (boundValues vs = [] ↔ vs = [] ∨ ∃ v rest, vs = v :: rest ∧ v.elems = some []) ∧
    ToSQL (In "id" [Value.ints []]) = Except.error Panic.sliceBounds ∧
    claimedValues [Value.ints []] = [Value.ints []] ∧
    ToSQL (In "id" [Value.ints [1, 2, 3]]) =
      Except.ok ("id IN (?,?,?)", [Value.int 1, Value.int 2, Value.int 3], none) := by
  have hcl : boundValues vs ≠ [] → claimedValues vs = boundValues vs := by
    intro hb
    cases vs with
    | nil => rfl
    | cons v rest =>
      cases he : v.elems with
      | none => simp [claimedValues, boundValues, he]
      | some es =>
        cases es with
        | nil => simp [boundValues, he] at hb
        | cons e es => simp [claimedValues, boundValues, he]
  have hin := condIn_reliable c vs "" []
  have hnot := condNotIn_reliable c vs "" []
  have e1 : (In c vs).WriteTo NewWriter = condIn.WriteTo c vs (Writer.mk "" [] []) := rfl
  have e2 : (NotIn c vs).WriteTo NewWriter = condNotIn.WriteTo c vs (Writer.mk "" [] []) := rfl
  refine ⟨?_, ?_, ?_, by decide, by decide, by decide⟩
  · simp only [ToSQL, In, Cond.isNil, Cond.isEmpty] at e1 ⊢
    simp only [Bool.false_eq_true, if_false]
    rw [e1, hin]
    by_cases h : vs = []
    · simp [h]
    · by_cases hb : boundValues vs = []
      · simp [h, hb]
      · simp [h, hb, hcl hb]
  · simp only [ToSQL, NotIn, Cond.isNil, Cond.isEmpty] at e2 ⊢
    simp only [Bool.false_eq_true, if_false]
    rw [e2, hnot]
    by_cases h : vs = []
    · simp [h]
    · by_cases hb : boundValues vs = []
      · simp [h, hb]
      · simp [h, hb, hcl hb]
  · cases vs with
    | nil => simp [boundValues]
    | cons v rest =>
      cases he : v.elems with
      | none => simp [boundValues, he]
      | some es => simp [boundValues, he]

/-! ## The methods And and Or -/

/-- C4, the counterexample: the methods are not uniform over the variants.
`Empty.And(IsNull a)` is the And node of `IsNull a` alone, not the And node of
Empty and `And(IsNull a)`; and for the Or node `o` of `IsNull a` and
`IsNull b`, `o.Or(IsNull c)` has three children, not the two `o` and
`Or(IsNull c)`. -/
theorem method_And_Or_not_uniform :
    Cond.And Cond.condEmpty [Cond.IsNull "a"] = Except.ok (Cond.condAnd [Cond.IsNull "a"]) ∧
    Cond.And Cond.condEmpty [Cond.IsNull "a"] ≠
      Except.ok (Cond.condAnd [Cond.condEmpty, And [Cond.IsNull "a"]]) ∧
    Cond.Or (Cond.condOr [Cond.IsNull "a", Cond.IsNull "b"]) [Cond.IsNull "c"] =
      Except.ok (Cond.condOr [Cond.IsNull "a", Cond.IsNull "b", Cond.condOr [Cond.IsNull "c"]]) ∧
    Cond.Or (Cond.condOr [Cond.IsNull "a", Cond.IsNull "b"]) [Cond.IsNull "c"] ≠
      Except.ok (Cond.condOr [Cond.condOr [Cond.IsNull "a", Cond.IsNull "b"],
        Or [Cond.IsNull "c"]]) := by
  refine ⟨rfl, ?_, rfl, ?_⟩
  · simp [Cond.And, And, And.loop, Cond.isNil, Cond.isEmpty, Cond.isAndOfNone, Cond.isOrOfNone]
  · simp [Cond.Or, Or, Or.loop, Cond.isNil, Cond.isEmpty]

/-- C4, as amended: for a receiver `x` of a variant other than Empty, And and
Or, `x.And(more...)` is the And node of exactly `x` and `And(more...)`, and
`x.Or(more...)` the Or node of exactly `x` and `Or(more...)`.  For an Or node
`x`, `x.And(more...)` is likewise the And node of `x` and `And(more...)`, but
`x.Or(more...)` is the Or node of the children of `x` followed by
`Or(more...)`.  For an And node `x`, `x.Or(more...)` is the Or node of `x`
and `Or(more...)`, but `x.And(more...)` is `And(x, And(more...))`, which
keeps `x` only if it has a child and `And(more...)` only if it has one.  For
Empty, `x.And(more...)` is `And(more...)` and `x.Or(more...)` is
`Or(more...)`. -/
theorem method_And_Or (x : Cond) (more : List Cond) :
    (x.isTerm = true →
      x.And more = Except.ok (Cond.condAnd [x, And more]) ∧
      x.Or more = Except.ok (Cond.condOr [x, Or more])) ∧
    (x.isOr = true →
      x.And more = Except.ok (Cond.condAnd [x, And more]) ∧
      x.Or more = Except.ok (Cond.condOr (x.children ++ [Or more]))) ∧
    (x.isAnd = true →
      x.Or more = Except.ok (Cond.condOr [x, Or more]) ∧
      x.And more = Except.ok (And [x, And more]) ∧
      And [x, And more] = Cond.condAnd
        ((if x.children.isEmpty then [] else [x]) ++
         (if (And more).children.isEmpty then [] else [And more]))) ∧
    (x.isEmpty = true →
      x.And more = Except.ok (And more) ∧ x.Or more = Except.ok (Or more)) := by
  refine ⟨?_, ?_, ?_, ?_⟩
  · intro h
    cases x <;> first | exact ⟨rfl, rfl⟩ | cases h
  · intro h
    cases x <;> first | exact ⟨rfl, rfl⟩ | cases h
  · intro h
    cases x with
    | condAnd cs =>
      refine ⟨rfl, rfl, ?_⟩
      rw [And_eq_filter [Cond.condAnd cs, And more], And_eq_filter more]
      cases cs <;> cases List.filter (fun c => !droppedByAnd c) more <;>
        simp [droppedByAnd, Cond.children]
    | _ => cases h
  · intro h
    cases x <;> first | exact ⟨rfl, rfl⟩ | cases h

/-- C4 as amended, at concrete receivers. -/
theorem method_And_Or_witness :
    Cond.And (Cond.IsNull "a") [Cond.IsNull "b"] =
      Except.ok (Cond.condAnd [Cond.IsNull "a", And [Cond.IsNull "b"]]) ∧
    Cond.Or (Cond.IsNull "a") [] = Except.ok (Cond.condOr [Cond.IsNull "a", Or []]) :=
  ⟨((method_And_Or (Cond.IsNull "a") [Cond.IsNull "b"]).1 rfl).1,
    ((method_And_Or (Cond.IsNull "a") []).1 rfl).2⟩

/-! ## Placeholders and arguments -/

/-- C2, the counterexample: `ToSQL` succeeds on the RawExpr `a=?` without
arguments, and on `IsNull` of the column `a?`, with one `?` in the text and
no argument. -/
theorem placeholders_unmatched :
    ToSQL (Expr "a=?" []) = Except.ok ("a=?", [], none) ∧
    countQ "a=?" ≠ ([] : List Value).length ∧
    ToSQL (Cond.IsNull "a?") = Except.ok ("a? IS NULL", [], none) ∧
    countQ "a? IS NULL" ≠ ([] : List Value).length := by
  decide

/-- C2, as amended: for every condition tree (any variant, any nesting) in
which every RawExpr node has as many `?` in its text as it has arguments and
no column name contains `?`, if `ToSQL` succeeds then the number of `?` in the
returned text is the length of the returned argument list, and `ToSQL`
succeeds with the same equality on every sub-tree. -/
theorem placeholders_match_args (c : Cond)
    (hraw : c.matchedRawExpr = true) (hcol : c.plainColumns = true)
    (t : String) (a : List Value) (h : ToSQL c = Except.ok (t, a, none)) :
    countQ t = a.length ∧
    ∀ s ∈ c.subtrees, ∃ t2 a2, ToSQL s = Except.ok (t2, a2, none) ∧ countQ t2 = a2.length := by
  rcases ToSQL_ok_cases c t a h with ⟨rfl, rfl, rfl⟩ | ⟨hd, rfl, rfl⟩
  · refine ⟨rfl, ?_⟩
    intro s hs
    simp only [Cond.subtrees, List.mem_singleton] at hs
    subst hs
    exact ⟨"", [], rfl, rfl⟩
  · have hc := Counts_of_done (WriteTo_counts c) hraw hcol hd
    refine ⟨by omega, ?_⟩
    intro s hs
    have hsd := subtrees_done c hd s hs
    have hs1 := all_subtrees _ c hraw s hs
    have hs2 := all_subtrees _ c hcol s hs
    have hsc := Counts_of_done (WriteTo_counts s) hs1 hs2 hsd
    exact ⟨_, _, ToSQL_of_done s hsd, by omega⟩

/-- C2 as amended, at `And(Eq[a:1], Not(Or(Expr("b > ?", 2), IsNull c)))` and
its sub-tree `Or(Expr("b > ?", 2), IsNull c)`. -/
theorem placeholders_match_args_witness :
    countQ "a=? AND NOT (b > ? OR c IS NULL)" = [Value.int 1, Value.int 2].length ∧
    ∃ t2 a2, ToSQL (Cond.condOr [Cond.expr "b > ?" [Value.int 2], Cond.IsNull "c"]) =
      Except.ok (t2, a2, none) ∧ countQ t2 = a2.length :=
  have h := placeholders_match_args
    (Cond.condAnd [Cond.Eq [("a", Value.int 1)],
      Cond.Not (Cond.condOr [Cond.expr "b > ?" [Value.int 2], Cond.IsNull "c"])])
    (by decide) (by decide) "a=? AND NOT (b > ? OR c IS NULL)" [Value.int 1, Value.int 2]
    (by decide)
  ⟨h.1, h.2 _ (by simp [Cond.subtrees, Cond.subtreesList])⟩

/-- C3: for every condition tree without RawExpr node and without `?` in a
column name, if `ToSQL` returns without error then the number of `?` in the
returned text is the length of the returned argument list, and both are the
number the claim counts: one per scalar entry of Eq, Neq, Lt, Lte, Gt, Gte,
one per element of a list-valued Eq or Neq entry and of In and NotIn, two for
Between, one for Like, none for IsNull and NotNull, none of their own for
And, Or and Not. -/
theorem placeholders_match_without_RawExpr (c : Cond)
    (hraw : c.noRawExpr = true) (hcol : c.plainColumns = true)
    (t : String) (a : List Value) (h : ToSQL c = Except.ok (t, a, none)) :
    countQ t = a.length ∧ a.length = c.slots := by
  have hm : c.all Cond.exprMatches = true :=
    all_mono _ _ (fun n hn => by cases n <;> first | rfl | cases hn) c hraw
  rcases ToSQL_ok_cases c t a h with ⟨rfl, rfl, rfl⟩ | ⟨hd, rfl, rfl⟩
  · exact ⟨rfl, rfl⟩
  · have hc := Counts_of_done (WriteTo_counts c) hm hcol hd
    omega

/-- C3 at `Or(And(Eq[a:1, ids:[7,8]], Between(b, 2, 3)), Not(In(c, 4, 5)), Like(d, x), IsNull e)`. -/
theorem placeholders_match_without_RawExpr_witness :
    countQ "(ids IN (?,?) AND a=? AND b BETWEEN ? AND ?) OR NOT c IN (?,?) OR d LIKE ? OR e IS NULL" =
      [Value.int 7, Value.int 8, Value.int 1, Value.int 2, Value.int 3, Value.int 4,
        Value.int 5, Value.str "%x%"].length ∧
    [Value.int 7, Value.int 8, Value.int 1, Value.int 2, Value.int 3, Value.int 4,
        Value.int 5, Value.str "%x%"].length = 8 :=
  placeholders_match_without_RawExpr
    (Cond.condOr [Cond.condAnd [Cond.Eq [("ids", Value.ints [7, 8]), ("a", Value.int 1)],
        Cond.Between "b" (Value.int 2) (Value.int 3)],
      Cond.Not (Cond.condIn "c" [Value.int 4, Value.int 5]), Cond.Like "d" "x", Cond.IsNull "e"])
    (by decide) (by decide) _ _ (by decide)

/-- C11: for every column `c` and every list `L` of a supported kind,
`ToSQL(Eq[c: L])` is `ToSQL(In(c, L))` and `ToSQL(Neq[c: L])` is
`ToSQL(NotIn(c, L))`: the same text, arguments and error, and the same panic
when `L` has no element. -/
theorem Eq_list_is_In (c : String) (L : Value) (h : L.isList = true) :
    ToSQL (Cond.Eq [(c, L)]) = ToSQL (In c [L]) ∧
    ToSQL (Cond.Neq [(c, L)]) = ToSQL (NotIn c [L]) := by
  constructor
  · simp only [ToSQL, Cond.isNil, Cond.isEmpty, In, Bool.false_eq_true, if_false]
    rw [Eq_single_list c L h NewWriter]
    rfl
  · simp only [ToSQL, Cond.isNil, Cond.isEmpty, NotIn, Bool.false_eq_true, if_false]
    rw [Neq_single_list c L h NewWriter]
    rfl

/-- C11, the witness: `Eq[ids: [1, 2, 3]]` compiles as `In(ids, [1, 2, 3])`,
to `ids IN (?,?,?)` with arguments `[1, 2, 3]`. -/
theorem Eq_list_is_In_witness :
    ToSQL (Cond.Eq [("ids", Value.ints [1, 2, 3])]) = ToSQL (In "ids" [Value.ints [1, 2, 3]]) ∧
    ToSQL (Cond.Eq [("ids", Value.ints [1, 2, 3])]) =
      Except.ok ("ids IN (?,?,?)", [Value.int 1, Value.int 2, Value.int 3], none) :=
  ⟨(Eq_list_is_In "ids" (Value.ints [1, 2, 3]) rfl).1, by decide⟩

/-! ## Nothing to compile -/

/-- C12: `ToSQL(nil)` and `ToSQL(NewCond())` both return the empty text, an
empty argument list and no error. -/
theorem ToSQL_nil_and_Empty :
    ToSQL Cond.nil = Except.ok ("", [], none) ∧ ToSQL NewCond = Except.ok ("", [], none) :=
  ⟨rfl, rfl⟩

/-- C13: when every input is nil, Empty, an And node with zero children or an
Or node with zero children (no input at all included), `ToSQL(And(conds...))`
returns the empty text, an empty argument list and no error. -/
theorem ToSQL_And_of_nothing (conds : List Cond) (h : ∀ c ∈ conds, droppedByAnd c = true) :
    ToSQL (And conds) = Except.ok ("", [], none) := by
  have hf : (conds.filter fun c => !droppedByAnd c) = [] := by
    rw [List.filter_eq_nil_iff]
    intro c hc
    simp [h c hc]
  rw [And_eq_filter, hf]
  rfl

/-- C13 at `And(nil, Empty, And(), Or())`, and at `And()`. -/
theorem ToSQL_And_of_nothing_witness :
    ToSQL (And [Cond.nil, NewCond, And [], Or []]) = Except.ok ("", [], none) ∧
    ToSQL (And []) = Except.ok ("", [], none) :=
  ⟨ToSQL_And_of_nothing [Cond.nil, NewCond, And [], Or []] (by decide),
   ToSQL_And_of_nothing [] (by decide)⟩

/-! ## Negation -/

/-- C14: for every condition `c` that emits successfully, `ToSQL(Not[c])` is
`NOT ` followed by the text of `c`, in parentheses if and only if `c` is an
And node or an Or node, with exactly the arguments of `c`. -/
theorem Not_ToSQL (c : Cond) (h : (c.WriteTo NewWriter).isDone = true) :
    ToSQL (Cond.Not c) = Except.ok
      ("NOT " ++ (if c.isAnd || c.isOr then "(" ++ (c.WriteTo NewWriter).text ++ ")"
          else (c.WriteTo NewWriter).text),
       (c.WriteTo NewWriter).args, none) ∧
    ToSQL c = Except.ok ((c.WriteTo NewWriter).text, (c.WriteTo NewWriter).args, none) := by
  refine ⟨?_, ToSQL_of_done c h⟩
  simp only [ToSQL, Cond.isNil, Cond.isEmpty, Bool.false_eq_true, if_false]
  rw [Not_of_done c h]
  rfl

/-- C14, the witness: `Not[And(Eq[a:1], Eq[b:2])]` compiles to
`NOT (a=? AND b=?)` with arguments `[1, 2]`. -/
theorem Not_ToSQL_witness :
    ToSQL (Cond.Not (And [Cond.Eq [("a", Value.int 1)], Cond.Eq [("b", Value.int 2)]])) =
      Except.ok ("NOT (a=? AND b=?)", [Value.int 1, Value.int 2], none) :=
  (Not_ToSQL (And [Cond.Eq [("a", Value.int 1)], Cond.Eq [("b", Value.int 2)]])
    (by decide)).1

/-- C16: for Lt, Lte, Gt and Gte with operator `<`, `<=`, `>`, `>=` and every
sequence of entries in emission order, `ToSQL` returns the texts
`k + op + "?"` of the entries joined by ` AND ` and the values of the entries
in the same order, a list value being one argument like any other; and
`ToSQL(Between[c, lo, hi])` returns `c + " BETWEEN ? AND ?"` with arguments
`[lo, hi]`, whatever `lo` and `hi` are. -/
theorem comparisons_ToSQL (m : List (String × Value)) (c : String) (lo hi : Value) :
    ToSQL (Cond.Lt m) = Except.ok
      (String.intercalate " AND " (m.map fun e => e.1 ++ "<" ++ "?"), m.map Prod.snd, none) ∧
    ToSQL (Cond.Lte m) = Except.ok
      (String.intercalate " AND " (m.map fun e => e.1 ++ "<=" ++ "?"), m.map Prod.snd, none) ∧
    ToSQL (Cond.Gt m) = Except.ok
      (String.intercalate " AND " (m.map fun e => e.1 ++ ">" ++ "?"), m.map Prod.snd, none) ∧
    ToSQL (Cond.Gte m) = Except.ok
      (String.intercalate " AND " (m.map fun e => e.1 ++ ">=" ++ "?"), m.map Prod.snd, none) ∧
    ToSQL (Cond.Between c lo hi) = Except.ok (c ++ " BETWEEN ? AND ?", [lo, hi], none) ∧
    ToSQL (Cond.Gte [("a", Value.int 1), ("b", Value.ints [2, 3])]) =
      Except.ok ("a>=? AND b>=?", [Value.int 1, Value.ints [2, 3]], none) ∧
    ToSQL (Cond.Between "a" (Value.int 9) (Value.int 1)) =
      Except.ok ("a BETWEEN ? AND ?", [Value.int 9, Value.int 1], none) := by
  refine ⟨?_, ?_, ?_, ?_, ?_, by decide, by decide⟩
  · simp only [ToSQL, Cond.isNil, Cond.isEmpty, Bool.false_eq_true, if_false, Cond.WriteTo,
      WriteMap_fresh]
  · simp only [ToSQL, Cond.isNil, Cond.isEmpty, Bool.false_eq_true, if_false, Cond.WriteTo,
      WriteMap_fresh]
  · simp only [ToSQL, Cond.isNil, Cond.isEmpty, Bool.false_eq_true, if_false, Cond.WriteTo,
      WriteMap_fresh]
  · simp only [ToSQL, Cond.isNil, Cond.isEmpty, Bool.false_eq_true, if_false, Cond.WriteTo,
      WriteMap_fresh]
  · simp [ToSQL, Cond.isNil, Cond.isEmpty, Cond.WriteTo, NewWriter, checked_reliable,
      Writer.Append]

/-! ## Errors -/

/-- C15: for every column, `ToSQL(In(c))` and `ToSQL(NotIn(c))` without value
argument return the error `No in conditions` with the empty text and no
argument; and an And or Or node whose children before the child `f` emit
successfully, and whose child `f` returns an error, compiles to that error
with the empty text and no argument, whatever the earlier children emitted
and whatever children follow. -/
theorem first_error_is_returned (c : String) (pre post : List Cond) (f : Cond) (e : Error)
    (hpre : ∀ d ∈ pre, (d.WriteTo NewWriter).isDone = true)
    (hf : (f.WriteTo NewWriter).err = some e) :
    ToSQL (In c []) = Except.ok ("", [], some (Error.new "No in conditions")) ∧
    ToSQL (NotIn c []) = Except.ok ("", [], some (Error.new "No in conditions")) ∧
    ((In c []).WriteTo NewWriter).err = some (Error.new "No in conditions") ∧
    ((NotIn c []).WriteTo NewWriter).err = some (Error.new "No in conditions") ∧
    ToSQL f = Except.ok ("", [], some e) ∧
    ToSQL (Cond.condAnd (pre ++ f :: post)) = Except.ok ("", [], some e) ∧
    ToSQL (Cond.condOr (pre ++ f :: post)) = Except.ok ("", [], some e) := by
  refine ⟨rfl, rfl, rfl, rfl, ToSQL_of_err f e hf, ?_, ?_⟩
  · apply ToSQL_of_err
    rw [Cond.WriteTo]
    exact condAnd_loop_fails _ pre post f e hpre hf 0 "" []
  · apply ToSQL_of_err
    rw [Cond.WriteTo]
    exact condOr_loop_fails _ pre post f e hpre hf 0 "" []

/-- C15, the witness: `And(Eq[a:1], In(id))` and `Or(Eq[a:1], In(id), Eq[b:2])`
return the error of `In(id)` with the empty text and no argument. -/
theorem first_error_is_returned_witness :
    ToSQL (And [Cond.Eq [("a", Value.int 1)], In "id" []]) =
      Except.ok ("", [], some (Error.new "No in conditions")) ∧
    ToSQL (Or [Cond.Eq [("a", Value.int 1)], In "id" [], Cond.Eq [("b", Value.int 2)]]) =
      Except.ok ("", [], some (Error.new "No in conditions")) :=
  have h := first_error_is_returned "id" [Cond.Eq [("a", Value.int 1)]] [] (In "id" [])
    (Error.new "No in conditions") (by decide) rfl
  have h2 := first_error_is_returned "id" [Cond.Eq [("a", Value.int 1)]]
    [Cond.Eq [("b", Value.int 2)]] (In "id" []) (Error.new "No in conditions") (by decide) rfl
  ⟨h.2.2.2.2.2.1, h2.2.2.2.2.2.2⟩

/-- C17 (the code breaks it): a failure of a write should end `WriteTo` with
that failure and without further write.  And and Or nodes drop the result of
their writes of `(`, `)`, ` AND ` and ` OR `: on a sink whose second write
fails, `And(IsNull a, IsNull b)` loses ` AND `, goes on to write `b IS NULL`
and returns nil, and so does Or with ` OR `; on a sink whose first write
fails, `And(Or(Like(a, x)))` loses `(` and still writes the rest and appends
the argument.  A leaf and a Not return the failure at once. -/
theorem And_Or_drop_write_failures :
    (Cond.condAnd [Cond.IsNull "a", Cond.IsNull "b"]).WriteTo (Writer.mk "" [] [false, true]) =
      Outcome.done (Writer.mk "a IS NULLb IS NULL" [] []) ∧
    (Cond.condOr [Cond.IsNull "a", Cond.IsNull "b"]).WriteTo (Writer.mk "" [] [false, true]) =
      Outcome.done (Writer.mk "a IS NULLb IS NULL" [] []) ∧
    (Cond.condAnd [Cond.condOr [Cond.Like "a" "x"]]).WriteTo (Writer.mk "" [] [true]) =
      Outcome.done (Writer.mk "a LIKE ?)" [Value.str "%x%"] []) ∧
    (Cond.condOr [Cond.condAnd [Cond.Like "a" "x"]]).WriteTo
        (Writer.mk "" [] [false, false, true]) =
      Outcome.done (Writer.mk "(a LIKE ?" [Value.str "%x%"] []) ∧
    (Cond.Like "a" "x").WriteTo (Writer.mk "" [] [true, false]) =
      Outcome.failed Error.sink (Writer.mk "" [] [false]) ∧
    (Cond.Not (Cond.condAnd [Cond.IsNull "a"])).WriteTo (Writer.mk "" [] [false, true, false]) =
      Outcome.failed Error.sink (Writer.mk "NOT " [] [false]) := by
  decide

/-! ## Regrouping And and Or -/

/-- C19, the counterexample: the calls compared are separate runs, and a run
may visit the map of `Eq[x:1, y:2]` in either order.  One run compiles
`And(And(a, b), c)` to `x=? AND y=? AND b IS NULL AND c IS NULL` with
arguments `[1, 2]`, another compiles `And(a, b, c)` for the same `a`, `b`,
`c` to `y=? AND x=? AND b IS NULL AND c IS NULL` with arguments `[2, 1]`. -/
theorem And_regroup_runs_differ :
    Reordered (Cond.Eq [("x", Value.int 1), ("y", Value.int 2)])
      (Cond.Eq [("y", Value.int 2), ("x", Value.int 1)]) ∧
    ToSQL (And [And [Cond.Eq [("x", Value.int 1), ("y", Value.int 2)], Cond.IsNull "b"],
        Cond.IsNull "c"]) =
      Except.ok ("x=? AND y=? AND b IS NULL AND c IS NULL",
        [Value.int 1, Value.int 2], none) ∧
    ToSQL (And [Cond.Eq [("y", Value.int 2), ("x", Value.int 1)], Cond.IsNull "b",
        Cond.IsNull "c"]) =
      Except.ok ("y=? AND x=? AND b IS NULL AND c IS NULL",
        [Value.int 2, Value.int 1], none) := by
  refine ⟨?_, by decide, by decide⟩
  rw [Reordered]
  exact ⟨_, rfl, List.Perm.swap _ _ _⟩

/-- C19, as amended: let one run compile `And(And(a, b), c)`, a second
`And(a, And(b, c))` and a third `And(a, b, c)`, for the same conditions (nil,
Empty and empty And or Or nodes included), visited as `a`, `b`, `c` by the
first run, as `a1`, `b1`, `c1` by the second and as `a2`, `b2`, `c2` by the
third.  If the three runs visit the entries of every map in the same order,
or no map in the conditions has more than one key, the three calls of `ToSQL`
return the same text, arguments and error. -/
theorem And_regroup (a b c a1 b1 c1 a2 b2 c2 : Cond)
    (ha1 : Reordered a a1) (hb1 : Reordered b b1) (hc1 : Reordered c c1)
    (ha2 : Reordered a a2) (hb2 : Reordered b b2) (hc2 : Reordered c c2)
    (horder : (a1 = a ∧ b1 = b ∧ c1 = c ∧ a2 = a ∧ b2 = b ∧ c2 = c) ∨
      (a.singleKeyed = true ∧ b.singleKeyed = true ∧ c.singleKeyed = true)) :
    ToSQL (And [And [a, b], c]) = ToSQL (And [a2, b2, c2]) ∧
    ToSQL (And [a1, And [b1, c1]]) = ToSQL (And [a2, b2, c2]) := by
  have he : a1 = a ∧ b1 = b ∧ c1 = c ∧ a2 = a ∧ b2 = b ∧ c2 = c := by
    rcases horder with h | ⟨sa, sb, sc⟩
    · exact h
    · exact ⟨Reordered_eq a a1 ha1 sa, Reordered_eq b b1 hb1 sb, Reordered_eq c c1 hc1 sc,
        Reordered_eq a a2 ha2 sa, Reordered_eq b b2 hb2 sb, Reordered_eq c c2 hc2 sc⟩
  obtain ⟨h1, h2, h3, h4, h5, h6⟩ := he
  rw [h1, h2, h3, h4, h5, h6]
  exact ⟨And_nest_left [a, b] [c], And_nest_right [a] [b, c]⟩

/-- C19 as amended, at `a = Eq[x:1, y:2]` visited in the same order by the
three runs, `b = IsNull b`, `c = nil`. -/
theorem And_regroup_witness :
    ToSQL (And [And [Cond.Eq [("x", Value.int 1), ("y", Value.int 2)], Cond.IsNull "b"],
        Cond.nil]) =
      ToSQL (And [Cond.Eq [("x", Value.int 1), ("y", Value.int 2)], Cond.IsNull "b",
        Cond.nil]) ∧
    ToSQL (And [Cond.Eq [("x", Value.int 1), ("y", Value.int 2)],
        And [Cond.IsNull "b", Cond.nil]]) =
      ToSQL (And [Cond.Eq [("x", Value.int 1), ("y", Value.int 2)], Cond.IsNull "b",
        Cond.nil]) :=
  And_regroup (Cond.Eq [("x", Value.int 1), ("y", Value.int 2)]) (Cond.IsNull "b") Cond.nil
    _ _ _ _ _ _ (Reordered_refl _) (Reordered_refl _) (Reordered_refl _)
    (Reordered_refl _) (Reordered_refl _) (Reordered_refl _)
    (Or.inl ⟨rfl, rfl, rfl, rfl, rfl, rfl⟩)

/-- C20, the counterexample: `Or(Or(nil, nil), Eq[c:3])` compiles to
` OR c=?` and `Or(Eq[a:1], Or(nil, Empty))` to `a=? OR `, but
`Or(nil, nil, Eq[c:3])` compiles to `c=?` and `Or(Eq[a:1], nil, Empty)` to
`a=?`: the inner Or without child is kept as a child. -/
theorem Or_regroup_differs :
    ToSQL (Or [Or [Cond.nil, Cond.nil], Cond.Eq [("c", Value.int 3)]]) =
      Except.ok (" OR c=?", [Value.int 3], none) ∧
    ToSQL (Or [Cond.nil, Cond.nil, Cond.Eq [("c", Value.int 3)]]) =
      Except.ok ("c=?", [Value.int 3], none) ∧
    ToSQL (Or [Cond.Eq [("a", Value.int 1)], Or [Cond.nil, NewCond]]) =
      Except.ok ("a=? OR ", [Value.int 1], none) ∧
    ToSQL (Or [Cond.Eq [("a", Value.int 1)], Cond.nil, NewCond]) =
      Except.ok ("a=?", [Value.int 1], none) := by
  decide

/-- C20, as amended: let one run compile `Or(Or(a, b), c)`, a second
`Or(a, Or(b, c))` and a third `Or(a, b, c)`, for the same conditions, visited
as `a`, `b`, `c` by the first run, as `a1`, `b1`, `c1` by the second and as
`a2`, `b2`, `c2` by the third.  If the three runs visit the entries of every
map in the same order, or no map in the conditions has more than one key,
then `ToSQL(Or(Or(a, b), c))` is `ToSQL(Or(a, b, c))` unless `a` and `b` are
each nil or Empty while `c` is neither, and `ToSQL(Or(a, Or(b, c)))` is
`ToSQL(Or(a, b, c))` unless `b` and `c` are each nil or Empty while `a` is
neither. -/
theorem Or_regroup (a b c a1 b1 c1 a2 b2 c2 : Cond)
    (ha1 : Reordered a a1) (hb1 : Reordered b b1) (hc1 : Reordered c c1)
    (ha2 : Reordered a a2) (hb2 : Reordered b b2) (hc2 : Reordered c c2)
    (horder : (a1 = a ∧ b1 = b ∧ c1 = c ∧ a2 = a ∧ b2 = b ∧ c2 = c) ∨
      (a.singleKeyed = true ∧ b.singleKeyed = true ∧ c.singleKeyed = true)) :
    (¬ (droppedByOr a = true ∧ droppedByOr b = true ∧ droppedByOr c = false) →
      ToSQL (Or [Or [a, b], c]) = ToSQL (Or [a2, b2, c2])) ∧
    (¬ (droppedByOr b = true ∧ droppedByOr c = true ∧ droppedByOr a = false) →
      ToSQL (Or [a1, Or [b1, c1]]) = ToSQL (Or [a2, b2, c2])) := by
  have he : a1 = a ∧ b1 = b ∧ c1 = c ∧ a2 = a ∧ b2 = b ∧ c2 = c := by
    rcases horder with h | ⟨sa, sb, sc⟩
    · exact h
    · exact ⟨Reordered_eq a a1 ha1 sa, Reordered_eq b b1 hb1 sb, Reordered_eq c c1 hc1 sc,
        Reordered_eq a a2 ha2 sa, Reordered_eq b b2 hb2 sb, Reordered_eq c c2 hc2 sc⟩
  obtain ⟨h1, h2, h3, h4, h5, h6⟩ := he
  rw [h1, h2, h3, h4, h5, h6]
  constructor
  · intro h
    apply Or_nest_left [a, b] [c]
    cases ha : droppedByOr a <;> cases hb : droppedByOr b <;> cases hc : droppedByOr c <;>
      simp [List.filter_cons, ha, hb, hc] at h ⊢
  · intro h
    apply Or_nest_right [a] [b, c]
    cases ha : droppedByOr a <;> cases hb : droppedByOr b <;> cases hc : droppedByOr c <;>
      simp [List.filter_cons, ha, hb, hc] at h ⊢

/-- C20 as amended, at `a = Eq[a:1]`, `b = nil`, `c = Or()`, where no map has
more than one key and both regroupings compile to `a=? OR `. -/
theorem Or_regroup_witness :
    ToSQL (Or [Or [Cond.Eq [("a", Value.int 1)], Cond.nil], Or []]) =
      ToSQL (Or [Cond.Eq [("a", Value.int 1)], Cond.nil, Or []]) ∧
    ToSQL (Or [Cond.Eq [("a", Value.int 1)], Or [Cond.nil, Or []]]) =
      ToSQL (Or [Cond.Eq [("a", Value.int 1)], Cond.nil, Or []]) :=
  have h := Or_regroup (Cond.Eq [("a", Value.int 1)]) Cond.nil (Or [])
    _ _ _ _ _ _ (Reordered_refl _) (Reordered_refl _) (Reordered_refl _)
    (Reordered_refl _) (Reordered_refl _) (Reordered_refl _)
    (Or.inr ⟨by decide, by decide, by decide⟩)
  ⟨h.1 (by decide), h.2 (by decide)⟩

/-! ## The methods against the constructors -/

/-- C18, the counterexample: `Eq[a:1].And()` is the And node of `Eq[a:1]` and
an And node without child and compiles to `a=? AND `, while `And(Eq[a:1])`
compiles to `a=?`, as `Eq[a:1]` does; and `Eq[a:1].Or(nil, Empty)` compiles
to `a=? OR `, while `Or(Eq[a:1], nil, Empty)` compiles to `a=?`. -/
theorem method_dangling_separator :
    Cond.And (Cond.Eq [("a", Value.int 1)]) [] =
      Except.ok (Cond.condAnd [Cond.Eq [("a", Value.int 1)], Cond.condAnd []]) ∧
    ToSQL (Cond.condAnd [Cond.Eq [("a", Value.int 1)], Cond.condAnd []]) =
      Except.ok ("a=? AND ", [Value.int 1], none) ∧
    ToSQL (And [Cond.Eq [("a", Value.int 1)]]) = Except.ok ("a=?", [Value.int 1], none) ∧
    ToSQL (Cond.Eq [("a", Value.int 1)]) = Except.ok ("a=?", [Value.int 1], none) ∧
    Cond.Or (Cond.Eq [("a", Value.int 1)]) [Cond.nil, NewCond] =
      Except.ok (Cond.condOr [Cond.Eq [("a", Value.int 1)], Cond.condOr []]) ∧
    ToSQL (Cond.condOr [Cond.Eq [("a", Value.int 1)], Cond.condOr []]) =
      Except.ok ("a=? OR ", [Value.int 1], none) ∧
    ToSQL (Or [Cond.Eq [("a", Value.int 1)], Cond.nil, NewCond]) =
      Except.ok ("a=?", [Value.int 1], none) :=
  ⟨rfl, by decide, by decide, by decide, rfl, by decide, by decide⟩

/-- C18, as amended: let one run call `a.And(more...)` or `a.Or(more...)` and
compile the result, and another run compile `And(a, more...)` or
`Or(a, more...)` for the same conditions, which it visits as `a2` and
`more2`; let `a` be not nil and not an Or node without child, and let the two
runs visit the entries of every map in the same order, or no map in `a` and
`more` have more than one key.  Then `ToSQL(a.And(more...))` is
`ToSQL(And(a, more...))` when `more` has an input that `And` keeps, or `a` is
Empty or an And node; and, for `a` not an Or node, `ToSQL(a.Or(more...))` is
`ToSQL(Or(a, more...))` when `more` has an input that `Or` keeps, or `a` is
Empty. -/
theorem method_ToSQL (a a2 : Cond) (more more2 : List Cond)
    (hnil : a.isNil = false) (hnone : a.isOrOfNone = false)
    (ha : Reordered a a2) (hm : ReorderedList more more2)
    (horder : (a2 = a ∧ more2 = more) ∨
      (a.singleKeyed = true ∧ ∀ c ∈ more, c.singleKeyed = true)) :
    ((more.any (fun c => !droppedByAnd c) = true ∨ a.isEmpty = true ∨ a.isAnd = true) →
      ∃ r, a.And more = Except.ok r ∧ ToSQL r = ToSQL (And (a2 :: more2))) ∧
    (a.isOr = false → (more.any (fun c => !droppedByOr c) = true ∨ a.isEmpty = true) →
      ∃ r, a.Or more = Except.ok r ∧ ToSQL r = ToSQL (Or (a2 :: more2))) := by
  have he : a2 = a ∧ more2 = more := by
    rcases horder with h | ⟨sa, sm⟩
    · exact h
    · exact ⟨Reordered_eq a a2 ha sa, ReorderedList_eq_of_singleKeyed more more2 hm sm⟩
  obtain ⟨h1, h2⟩ := he
  rw [h1, h2]
  by_cases ht : a.isTerm = true
  · obtain ⟨hA, hO⟩ := isTerm_methods a more ht
    obtain ⟨kA, kO, _, nA⟩ := isTerm_kept a ht
    have hE : a.isEmpty = false := by cases a <;> first | rfl | cases ht
    refine ⟨?_, ?_⟩
    · intro h
      rcases h with h | h | h
      · exact ⟨_, hA, pair_And_ToSQL a more kA h⟩
      · rw [hE] at h; cases h
      · rw [nA] at h; cases h
    · intro _ h
      rcases h with h | h
      · exact ⟨_, hO, pair_Or_ToSQL a more kO h⟩
      · rw [hE] at h; cases h
  · refine ⟨?_, ?_⟩
    · intro h
      cases a with
      | nil => cases hnil
      | condEmpty => exact ⟨_, rfl, by rw [And_skips_Empty]⟩
      | condAnd cs => exact ⟨_, rfl, And_nest_right [Cond.condAnd cs] more⟩
      | condOr cs =>
        have hk : droppedByAnd (Cond.condOr cs) = false := by
          cases cs with
          | nil => cases hnone
          | cons c cs => rfl
        rcases h with h | h | h
        · exact ⟨_, rfl, pair_And_ToSQL _ more hk h⟩
        · cases h
        · cases h
      | _ => exact absurd rfl ht
    · intro hor h
      cases a with
      | nil => cases hnil
      | condEmpty => exact ⟨_, rfl, by rw [Or_skips_Empty]⟩
      | condAnd cs =>
        rcases h with h | h
        · refine ⟨_, rfl, ?_⟩
          rw [Or_pair (Cond.condAnd cs) more rfl]
          exact pair_Or_ToSQL (Cond.condAnd cs) more rfl h
        · cases h
      | condOr cs => cases hor
      | _ => exact absurd rfl ht

/-- C18 as amended, at `Eq[a:1].And(Eq[b:2])` and `Eq[a:1].Or(nil, Eq[b:2])`,
where no map has more than one key. -/
theorem method_ToSQL_witness :
    (∃ r, Cond.And (Cond.Eq [("a", Value.int 1)]) [Cond.Eq [("b", Value.int 2)]] =
        Except.ok r ∧
      ToSQL r = ToSQL (And [Cond.Eq [("a", Value.int 1)], Cond.Eq [("b", Value.int 2)]])) ∧
    (∃ r, Cond.Or (Cond.Eq [("a", Value.int 1)]) [Cond.nil, Cond.Eq [("b", Value.int 2)]] =
        Except.ok r ∧
      ToSQL r =
        ToSQL (Or [Cond.Eq [("a", Value.int 1)], Cond.nil, Cond.Eq [("b", Value.int 2)]])) :=
  ⟨(method_ToSQL (Cond.Eq [("a", Value.int 1)]) _ [Cond.Eq [("b", Value.int 2)]] _ rfl rfl
      (Reordered_refl _) (ReorderedList_refl _ fun c _ => Reordered_refl c)
      (Or.inr ⟨by decide, by decide⟩)).1 (Or.inl (by decide)),
   (method_ToSQL (Cond.Eq [("a", Value.int 1)]) _ [Cond.nil, Cond.Eq [("b", Value.int 2)]] _
      rfl rfl (Reordered_refl _) (ReorderedList_refl _ fun c _ => Reordered_refl c)
      (Or.inr ⟨by decide, by decide⟩)).2 rfl (Or.inl (by decide))⟩

end Builder
